import Mathlib

/-!
# Verification of the bilingual line-synchronization engine

Shallow embedding of the line classifier, key normalizer, match decision
engine (`matcher.go`) and the dual-cursor synchronization driver
(`synchronizeDocuments` in `main.go`) of the `hbctranslate` repository,
together with theorems checking the natural-language specification.

Text is modelled as `List Char`: Go's `for _, r := range text` iterates
over runes (Unicode scalar values), which is exactly `List Char`.  The two
places where the Go code indexes raw bytes (`key[1]` and slicing at
`firstEnglishIndex`) operate at positions that are provably rune-aligned
(the first byte of `key` is an ASCII letter; the slice starts at the byte
offset of a rune reported by `range`), so the rune-level model agrees with
the byte-level code there.
-/

namespace Hbc

/-- Characters in the CJK Unified Ideographs range U+4E00..U+9FFF, the range
tested by `containsChinese` in `matcher.go`. -/
def isChineseChar (c : Char) : Bool :=
  0x4e00 ≤ c.toNat && c.toNat ≤ 0x9fff

/-- `containsChinese` (matcher.go): true iff some rune of the text lies in the
CJK Unified Ideographs range. -/
def containsChinese (text : List Char) : Bool :=
  text.any isChineseChar

/-- The whitespace characters removed by `generateLineKey`: space, tab,
newline, carriage return (the explicit rune comparisons in matcher.go). -/
def isKeyWhitespace (c : Char) : Bool :=
  c == ' ' || c == '\t' || c == '\n' || c == '\r'

/-- Go's `unicode.IsSpace`, used by `strings.TrimSpace`: the Unicode
White_Space property (U+0009..U+000D, U+0020, U+0085, U+00A0, U+1680,
U+2000..U+200A, U+2028, U+2029, U+202F, U+205F, U+3000). -/
def goIsSpace (c : Char) : Bool :=
  (0x9 ≤ c.toNat && c.toNat ≤ 0xd) || c.toNat == 0x20 || c.toNat == 0x85 ||
    c.toNat == 0xa0 || c.toNat == 0x1680 ||
    (0x2000 ≤ c.toNat && c.toNat ≤ 0x200a) || c.toNat == 0x2028 ||
    c.toNat == 0x2029 || c.toNat == 0x202f || c.toNat == 0x205f ||
    c.toNat == 0x3000

/-- Go's `strings.TrimSpace`: drop leading and trailing Unicode whitespace. -/
def trimSpace (text : List Char) : List Char :=
  ((text.dropWhile goIsSpace).reverse.dropWhile goIsSpace).reverse

/-- ASCII letters A-Z / a-z, the "English letter" test in `generateLineKey`. -/
def isEnglishLetter (c : Char) : Bool :=
  (0x41 ≤ c.toNat && c.toNat ≤ 0x5a) || (0x61 ≤ c.toNat && c.toNat ≤ 0x7a)

/-- The Unicode simple lowercase mapping applied by Go's `strings.ToLower`
(`unicode.ToLower`), as compressed ranges `(lo, hi, stride, delta)`: a code
point `n` with `lo ≤ n ≤ hi` and `(n - lo) % stride = 0` lowercases to
`n + delta`.  Generated from the UnicodeData simple lowercase field
(Unicode 14.0, which agrees with the Unicode 15.0 tables of Go 1.21 on
case mappings), including the exceptional mapping U+0130 → U+0069.  All
other code points — in particular CJK ideographs, digits, whitespace and
punctuation — are uncased and map to themselves. -/
def toLowerRanges : List (Nat × Nat × Nat × Int) :=
  [(0x41, 0x5a, 1, 32), (0xc0, 0xd6, 1, 32),
   (0xd8, 0xde, 1, 32), (0x100, 0x12e, 2, 1),
   (0x130, 0x130, 1, -199), (0x132, 0x136, 2, 1),
   (0x139, 0x147, 2, 1), (0x14a, 0x176, 2, 1),
   (0x178, 0x178, 1, -121), (0x179, 0x17d, 2, 1),
   (0x181, 0x181, 1, 210), (0x182, 0x184, 2, 1),
   (0x186, 0x186, 1, 206), (0x187, 0x187, 1, 1),
   (0x189, 0x18a, 1, 205), (0x18b, 0x18b, 1, 1),
   (0x18e, 0x18e, 1, 79), (0x18f, 0x18f, 1, 202),
   (0x190, 0x190, 1, 203), (0x191, 0x191, 1, 1),
   (0x193, 0x193, 1, 205), (0x194, 0x194, 1, 207),
   (0x196, 0x196, 1, 211), (0x197, 0x197, 1, 209),
   (0x198, 0x198, 1, 1), (0x19c, 0x19c, 1, 211),
   (0x19d, 0x19d, 1, 213), (0x19f, 0x19f, 1, 214),
   (0x1a0, 0x1a4, 2, 1), (0x1a6, 0x1a6, 1, 218),
   (0x1a7, 0x1a7, 1, 1), (0x1a9, 0x1a9, 1, 218),
   (0x1ac, 0x1ac, 1, 1), (0x1ae, 0x1ae, 1, 218),
   (0x1af, 0x1af, 1, 1), (0x1b1, 0x1b2, 1, 217),
   (0x1b3, 0x1b5, 2, 1), (0x1b7, 0x1b7, 1, 219),
   (0x1b8, 0x1b8, 1, 1), (0x1bc, 0x1bc, 1, 1),
   (0x1c4, 0x1c4, 1, 2), (0x1c5, 0x1c5, 1, 1),
   (0x1c7, 0x1c7, 1, 2), (0x1c8, 0x1c8, 1, 1),
   (0x1ca, 0x1ca, 1, 2), (0x1cb, 0x1db, 2, 1),
   (0x1de, 0x1ee, 2, 1), (0x1f1, 0x1f1, 1, 2),
   (0x1f2, 0x1f4, 2, 1), (0x1f6, 0x1f6, 1, -97),
   (0x1f7, 0x1f7, 1, -56), (0x1f8, 0x21e, 2, 1),
   (0x220, 0x220, 1, -130), (0x222, 0x232, 2, 1),
   (0x23a, 0x23a, 1, 10795), (0x23b, 0x23b, 1, 1),
   (0x23d, 0x23d, 1, -163), (0x23e, 0x23e, 1, 10792),
   (0x241, 0x241, 1, 1), (0x243, 0x243, 1, -195),
   (0x244, 0x244, 1, 69), (0x245, 0x245, 1, 71),
   (0x246, 0x24e, 2, 1), (0x370, 0x372, 2, 1),
   (0x376, 0x376, 1, 1), (0x37f, 0x37f, 1, 116),
   (0x386, 0x386, 1, 38), (0x388, 0x38a, 1, 37),
   (0x38c, 0x38c, 1, 64), (0x38e, 0x38f, 1, 63),
   (0x391, 0x3a1, 1, 32), (0x3a3, 0x3ab, 1, 32),
   (0x3cf, 0x3cf, 1, 8), (0x3d8, 0x3ee, 2, 1),
   (0x3f4, 0x3f4, 1, -60), (0x3f7, 0x3f7, 1, 1),
   (0x3f9, 0x3f9, 1, -7), (0x3fa, 0x3fa, 1, 1),
   (0x3fd, 0x3ff, 1, -130), (0x400, 0x40f, 1, 80),
   (0x410, 0x42f, 1, 32), (0x460, 0x480, 2, 1),
   (0x48a, 0x4be, 2, 1), (0x4c0, 0x4c0, 1, 15),
   (0x4c1, 0x4cd, 2, 1), (0x4d0, 0x52e, 2, 1),
   (0x531, 0x556, 1, 48), (0x10a0, 0x10c5, 1, 7264),
   (0x10c7, 0x10c7, 1, 7264), (0x10cd, 0x10cd, 1, 7264),
   (0x13a0, 0x13ef, 1, 38864), (0x13f0, 0x13f5, 1, 8),
   (0x1c90, 0x1cba, 1, -3008), (0x1cbd, 0x1cbf, 1, -3008),
   (0x1e00, 0x1e94, 2, 1), (0x1e9e, 0x1e9e, 1, -7615),
   (0x1ea0, 0x1efe, 2, 1), (0x1f08, 0x1f0f, 1, -8),
   (0x1f18, 0x1f1d, 1, -8), (0x1f28, 0x1f2f, 1, -8),
   (0x1f38, 0x1f3f, 1, -8), (0x1f48, 0x1f4d, 1, -8),
   (0x1f59, 0x1f5f, 2, -8), (0x1f68, 0x1f6f, 1, -8),
   (0x1f88, 0x1f8f, 1, -8), (0x1f98, 0x1f9f, 1, -8),
   (0x1fa8, 0x1faf, 1, -8), (0x1fb8, 0x1fb9, 1, -8),
   (0x1fba, 0x1fbb, 1, -74), (0x1fbc, 0x1fbc, 1, -9),
   (0x1fc8, 0x1fcb, 1, -86), (0x1fcc, 0x1fcc, 1, -9),
   (0x1fd8, 0x1fd9, 1, -8), (0x1fda, 0x1fdb, 1, -100),
   (0x1fe8, 0x1fe9, 1, -8), (0x1fea, 0x1feb, 1, -112),
   (0x1fec, 0x1fec, 1, -7), (0x1ff8, 0x1ff9, 1, -128),
   (0x1ffa, 0x1ffb, 1, -126), (0x1ffc, 0x1ffc, 1, -9),
   (0x2126, 0x2126, 1, -7517), (0x212a, 0x212a, 1, -8383),
   (0x212b, 0x212b, 1, -8262), (0x2132, 0x2132, 1, 28),
   (0x2160, 0x216f, 1, 16), (0x2183, 0x2183, 1, 1),
   (0x24b6, 0x24cf, 1, 26), (0x2c00, 0x2c2f, 1, 48),
   (0x2c60, 0x2c60, 1, 1), (0x2c62, 0x2c62, 1, -10743),
   (0x2c63, 0x2c63, 1, -3814), (0x2c64, 0x2c64, 1, -10727),
   (0x2c67, 0x2c6b, 2, 1), (0x2c6d, 0x2c6d, 1, -10780),
   (0x2c6e, 0x2c6e, 1, -10749), (0x2c6f, 0x2c6f, 1, -10783),
   (0x2c70, 0x2c70, 1, -10782), (0x2c72, 0x2c72, 1, 1),
   (0x2c75, 0x2c75, 1, 1), (0x2c7e, 0x2c7f, 1, -10815),
   (0x2c80, 0x2ce2, 2, 1), (0x2ceb, 0x2ced, 2, 1),
   (0x2cf2, 0x2cf2, 1, 1), (0xa640, 0xa66c, 2, 1),
   (0xa680, 0xa69a, 2, 1), (0xa722, 0xa72e, 2, 1),
   (0xa732, 0xa76e, 2, 1), (0xa779, 0xa77b, 2, 1),
   (0xa77d, 0xa77d, 1, -35332), (0xa77e, 0xa786, 2, 1),
   (0xa78b, 0xa78b, 1, 1), (0xa78d, 0xa78d, 1, -42280),
   (0xa790, 0xa792, 2, 1), (0xa796, 0xa7a8, 2, 1),
   (0xa7aa, 0xa7aa, 1, -42308), (0xa7ab, 0xa7ab, 1, -42319),
   (0xa7ac, 0xa7ac, 1, -42315), (0xa7ad, 0xa7ad, 1, -42305),
   (0xa7ae, 0xa7ae, 1, -42308), (0xa7b0, 0xa7b0, 1, -42258),
   (0xa7b1, 0xa7b1, 1, -42282), (0xa7b2, 0xa7b2, 1, -42261),
   (0xa7b3, 0xa7b3, 1, 928), (0xa7b4, 0xa7c2, 2, 1),
   (0xa7c4, 0xa7c4, 1, -48), (0xa7c5, 0xa7c5, 1, -42307),
   (0xa7c6, 0xa7c6, 1, -35384), (0xa7c7, 0xa7c9, 2, 1),
   (0xa7d0, 0xa7d0, 1, 1), (0xa7d6, 0xa7d8, 2, 1),
   (0xa7f5, 0xa7f5, 1, 1), (0xff21, 0xff3a, 1, 32),
   (0x10400, 0x10427, 1, 40), (0x104b0, 0x104d3, 1, 40),
   (0x10570, 0x1057a, 1, 39), (0x1057c, 0x1058a, 1, 39),
   (0x1058c, 0x10592, 1, 39), (0x10594, 0x10595, 1, 39),
   (0x10c80, 0x10cb2, 1, 64), (0x118a0, 0x118bf, 1, 32),
   (0x16e40, 0x16e5f, 1, 32), (0x1e900, 0x1e921, 1, 34)]

/-- `strings.ToLower` character-wise: the ASCII fast path followed by the
range-table lookup of `unicode.ToLower`. -/
def toLowerChar (c : Char) : Char :=
  if c.toNat < 0x80 then
    if 0x41 ≤ c.toNat ∧ c.toNat ≤ 0x5a then Char.ofNat (c.toNat + 32) else c
  else
    match toLowerRanges.find? (fun r =>
        r.1 ≤ c.toNat && c.toNat ≤ r.2.1 && (c.toNat - r.1) % r.2.2.1 == 0) with
    | some r => Char.ofNat (((c.toNat : Int) + r.2.2.2).toNat)
    | none => c

/-- The enumeration-prefix removal step ending `generateLineKey` (matcher.go
lines 91-93): drop the first two characters when the second one is a period
("a.", "1.", ...).  Go tests the byte `key[1]`; since `key` is nonempty and
starts with an ASCII (single-byte) letter, byte 1 is the first byte of the
second rune, and it equals `.` exactly when the second rune is `.` (UTF-8
continuation/lead bytes of multibyte runes are ≥ 0x80). -/
def dotTrim (key : List Char) : List Char :=
  match key with
  | a :: b :: rest => if b == '.' then rest else a :: b :: rest
  | k => k

/-- `generateLineKey` (matcher.go): find the first ASCII letter (empty key if
none), take the text from that letter to the end, remove the four whitespace
characters, lowercase, and apply `dotTrim`. -/
def generateLineKey (text : List Char) : List Char :=
  if (text.dropWhile fun c => !isEnglishLetter c).isEmpty then []
  else
    dotTrim (((text.dropWhile fun c => !isEnglishLetter c).filter
      fun c => !isKeyWhitespace c).map toLowerChar)

/-- `LineType` (matcher.go). -/
inductive LineType where
  | english
  | chinese
  | mixed
  | empty
  deriving DecidableEq, Repr

/-- `classifyLineType` (matcher.go): Empty when the trimmed text is empty;
otherwise Mixed / Chinese / English / Empty according to the presence of CJK
characters and of a non-empty normalized key. -/
def classifyLineType (text : List Char) : LineType :=
  if (trimSpace text).isEmpty then .empty
  else if containsChinese text && !(generateLineKey text).isEmpty then .mixed
  else if containsChinese text then .chinese
  else if !(generateLineKey text).isEmpty then .english
  else .empty

/-- `LineFeatures` (main.go).  Of all the style fields captured from a line
(alignment, indents, font, bold/italic/underline, color, bullet data,
leading tabs), the synchronization driver's control flow reads only
`LeadingTabs` (for the deferred tab-insertion map); every other field is
passed through unchanged to the external `applyFormattingToRange` call.  The
embedding therefore records the one field the driver inspects. -/
structure LineFeatures where
  leadingTabs : Nat
  deriving DecidableEq, Repr

/-- `MatchDecision` (matcher.go). -/
structure MatchDecision where
  shouldAddEmptyLine : Bool
  shouldFollowPrevStyle : Bool
  shouldAdvanceSource : Bool
  lineType : LineType
  linesMatch : Bool
  deriving DecidableEq, Repr

/-- `shouldAddEmptyLine` (matcher.go): true for Chinese and Mixed lines.  The
`previousLineText` parameter is accepted and ignored, as in the source. -/
def shouldAddEmptyLine (lineText : List Char) (_previousLineText : List Char) : Bool :=
  let lineType := classifyLineType lineText
  lineType == .chinese || lineType == .mixed

/-- `shouldFollowPreviousLineStyle` (matcher.go): true for Chinese and Mixed
lines when a previous-features snapshot is present. -/
def shouldFollowPreviousLineStyle (lineText : List Char)
    (previousFeatures : Option LineFeatures) : Bool :=
  let lineType := classifyLineType lineText
  (lineType == .chinese || lineType == .mixed) && previousFeatures.isSome

/-- `shouldAdvanceSourceCursor` (matcher.go): pass-through of the driver's
`lastProcessedWasChinese` flag. -/
def shouldAdvanceSourceCursor (lastProcessedWasChinese : Bool) : Bool :=
  lastProcessedWasChinese

/-- `linesMatch` (matcher.go): key equality. -/
def linesMatch (sourceKey targetKey : List Char) : Bool :=
  sourceKey == targetKey

/-- `AnalyzeLineMatch` (matcher.go). -/
def AnalyzeLineMatch (sourceText targetText : List Char)
    (previousFeatures : Option LineFeatures)
    (lastProcessedWasChinese : Bool) : MatchDecision :=
  let targetLineType := classifyLineType targetText
  let sourceKey := generateLineKey sourceText
  let targetKey := generateLineKey targetText
  { lineType := targetLineType
    shouldAddEmptyLine := shouldAddEmptyLine targetText []
    shouldFollowPrevStyle := shouldFollowPreviousLineStyle targetText previousFeatures
    shouldAdvanceSource := shouldAdvanceSourceCursor lastProcessedWasChinese
    linesMatch := linesMatch sourceKey targetKey }

/-!
## The dual-cursor synchronization driver (`synchronizeDocuments`, main.go)

The driver pulls lines from the two documents through
`getNextNonEmptyLine`, which yields the successive trimmed non-empty lines
of a document (or an "end of document" signal).  The embedding therefore
represents each document by the list of lines that stream produces; a
`Line` carries the text together with the style features
`extractLineFeatures` captures for it.  Calls to the external Google-Docs
service (`applyFormattingToRange`, the final tab-insertion batch) mutate
the remote document, not the driver state; their only trace inside the
driver is the `tabsToAddMap` bookkeeping, which the embedding keeps as an
association list in iteration order.
-/

/-- One line pulled from a document: its text and its extracted features
(`LineInfo` plus `extractLineFeatures` in main.go). -/
structure Line where
  text : List Char
  features : LineFeatures
  deriving DecidableEq, Repr

/-- `SyncError` (main.go). -/
structure SyncError where
  sourceLine : Nat
  targetLine : Nat
  sourceKey : List Char
  targetKey : List Char
  message : String
  deriving DecidableEq, Repr

/-- The mutable state of `synchronizeDocuments`: the unread remainder of the
source stream, both line counters, the current source line with its key and
features, the retained previous-features snapshot, the
`lastProcessedWasChinese` flag, and the `tabsToAddMap` entries (loop id,
tab count) in insertion order.  The unread remainder of the target stream
is threaded separately as the recursion argument of the loop. -/
structure SyncState where
  sourceRest : List Line
  sourceLineNum : Nat
  targetLineNum : Nat
  current : Line
  sourceKey : List Char
  sourceFeatures : LineFeatures
  previousFeatures : Option LineFeatures
  lastProcessedWasChinese : Bool
  tabsToAdd : List (Nat × Nat)
  deriving DecidableEq, Repr

/-- Result of a full driver run.  `ok` carries the final state (the Go code
then performs the deferred tab-insertion pass on the remote document and
returns nil).  `syncError` is a returned `*SyncError`; `otherError` covers
the plain `fmt.Errorf` failures (first-source-line read failure and the
fast-forward exhaustion errors). -/
inductive RunResult where
  | ok (s : SyncState)
  | syncError (e : SyncError)
  | otherError (msg : String)
  deriving DecidableEq, Repr

/-- Step 1 of each loop iteration: when `shouldAdvanceSourceCursor` holds,
pull the next source line, bump the counter and recompute key and features;
`none` signals source exhaustion during a required advance. -/
def advanceIfNeeded (s : SyncState) : Option SyncState :=
  if shouldAdvanceSourceCursor s.lastProcessedWasChinese then
    match s.sourceRest with
    | [] => none
    | line :: rest =>
      some { s with
        sourceRest := rest
        sourceLineNum := s.sourceLineNum + 1
        current := line
        sourceKey := generateLineKey line.text
        sourceFeatures := line.features }
  else some s

/-- The body of one main-loop iteration after the target line has been
pulled (main.go lines 1009-1069): bump the target counter, run
`AnalyzeLineMatch`, then either take the Chinese/Mixed branch (record
pending tabs from the retained snapshot, set the flag) or the English
branch (raise `SyncError` on key mismatch, otherwise record pending tabs
from the source features, retain the source features as previous, clear
the flag).  `applyFormattingToRange` only touches the remote document —
a failure there is logged and the loop continues — so it leaves no trace
in this state. -/
def processTarget (loopID : Nat) (s : SyncState) (t : Line) : SyncError ⊕ SyncState :=
  let s := { s with targetLineNum := s.targetLineNum + 1 }
  let decision := AnalyzeLineMatch s.current.text t.text s.previousFeatures
    s.lastProcessedWasChinese
  if decision.lineType == .chinese || decision.lineType == .mixed then
    let tabs :=
      match s.previousFeatures with
      | some pf => if pf.leadingTabs > 0 then s.tabsToAdd ++ [(loopID, pf.leadingTabs)]
          else s.tabsToAdd
      | none => s.tabsToAdd
    Sum.inr { s with tabsToAdd := tabs, lastProcessedWasChinese := true }
  else
    let targetKey := generateLineKey t.text
    if !decision.linesMatch then
      Sum.inl { sourceLine := s.sourceLineNum
                targetLine := s.targetLineNum
                sourceKey := s.sourceKey
                targetKey := targetKey
                message := "Line content mismatch" }
    else
      let tabs := if s.sourceFeatures.leadingTabs > 0 then
          s.tabsToAdd ++ [(loopID, s.sourceFeatures.leadingTabs)]
        else s.tabsToAdd
      Sum.inr { s with
        tabsToAdd := tabs
        previousFeatures := some s.sourceFeatures
        lastProcessedWasChinese := false }

/-- The main loop (main.go lines 977-1070), by recursion over the target
stream: advance the source if required (exhaustion breaks the loop
successfully), pull the next target line (exhaustion breaks the loop
successfully), process it, and continue or abort with the `SyncError`. -/
def runFrom (loopID : Nat) (s : SyncState) (targets : List Line) : RunResult :=
  match advanceIfNeeded s with
  | none => .ok s
  | some s1 =>
    match targets with
    | [] => .ok s1
    | t :: ts =>
      match processTarget loopID s1 t with
      | .inl e => .syncError e
      | .inr s2 => runFrom (loopID + 1) s2 ts

/-- The body of one fast-forward iteration after the target line has been
pulled (main.go lines 955-973): identical to `processTarget` except that no
formatting side effect is performed and hence no pending-tab entry is
recorded. -/
def ffProcessTarget (s : SyncState) (t : Line) : SyncError ⊕ SyncState :=
  let s := { s with targetLineNum := s.targetLineNum + 1 }
  let decision := AnalyzeLineMatch s.current.text t.text s.previousFeatures
    s.lastProcessedWasChinese
  if decision.lineType == .chinese || decision.lineType == .mixed then
    Sum.inr { s with lastProcessedWasChinese := true }
  else
    let targetKey := generateLineKey t.text
    if !decision.linesMatch then
      Sum.inl { sourceLine := s.sourceLineNum
                targetLine := s.targetLineNum
                sourceKey := s.sourceKey
                targetKey := targetKey
                message := "Line content mismatch" }
    else
      Sum.inr { s with
        previousFeatures := some s.sourceFeatures
        lastProcessedWasChinese := false }

/-- Result of the fast-forward phase (main.go lines 931-975): the state and
remaining target stream on success, a `SyncError` on mismatch, or one of
the two fatal exhaustion errors (during fast-forward, reaching the end of
either document is an error, unlike in the main loop). -/
inductive FFResult where
  | ok (s : SyncState) (targets : List Line)
  | syncError (e : SyncError)
  | sourceExhausted (sourceLineNum : Nat)
  | targetExhausted (targetLineNum : Nat)
  deriving DecidableEq, Repr

/-- The fast-forward loop, iterated `k` times (Go: `for loopID := 1; loopID
< startLoop; loopID++`, so `k = startLoop - 1`). -/
def ffRun (k : Nat) (s : SyncState) (targets : List Line) : FFResult :=
  match k with
  | 0 => .ok s targets
  | k + 1 =>
    match advanceIfNeeded s with
    | none => .sourceExhausted s.sourceLineNum
    | some s1 =>
      match targets with
      | [] => .targetExhausted s1.targetLineNum
      | t :: ts =>
        match ffProcessTarget s1 t with
        | .inl e => .syncError e
        | .inr s2 => ffRun k s2 ts

/-- The initial driver state after the first source line has been read
(main.go lines 904-927). -/
def initState (first : Line) (rest : List Line) : SyncState :=
  { sourceRest := rest
    sourceLineNum := 1
    targetLineNum := 0
    current := first
    sourceKey := generateLineKey first.text
    sourceFeatures := first.features
    previousFeatures := none
    lastProcessedWasChinese := false
    tabsToAdd := [] }

/-- `synchronizeDocuments` (main.go), over the two line streams: read the
first source line (failure if the source stream is empty), optionally
fast-forward `startLoop - 1` iterations, then run the main loop. -/
def synchronizeDocuments (sourceLines targetLines : List Line)
    (startLoop : Nat) : RunResult :=
  match sourceLines with
  | [] => .otherError "error reading first source line: end of document"
  | first :: rest =>
    let s0 := initState first rest
    if startLoop > 1 then
      match ffRun (startLoop - 1) s0 targetLines with
      | .ok s1 ts1 => runFrom startLoop s1 ts1
      | .syncError e => .syncError e
      | .sourceExhausted n =>
        .otherError ("reached end of source document while fast-forwarding at source line "
          ++ toString n)
      | .targetExhausted n =>
        .otherError ("reached end of target document while fast-forwarding at target line "
          ++ toString n)
    else runFrom startLoop s0 targetLines

/-!
## Auxiliary definitions used by the claim statements
-/

/-- ASCII-only lowercasing, as claim C6 literally words the normalizer
("all ASCII letters lowercased"): the identity on every non-ASCII
character. -/
def asciiLowerChar (c : Char) : Char :=
  if 0x41 ≤ c.toNat ∧ c.toNat ≤ 0x5a then Char.ofNat (c.toNat + 32) else c

/-- Whitespace removal followed by character-wise lowering with `low`. -/
def normalizeWithClean (low : Char → Char) (t : List Char) : List Char :=
  (t.filter fun c => !isKeyWhitespace c).map low

/-- The normalizer as worded by claim C6 / spec §4.2, parameterized by the
lowering function: empty when the text has no ASCII letter; otherwise the
substring from the first ASCII letter to the end, whitespace removed and
characters lowered by `low`, with the first two characters dropped when the
second character of that result is a period. -/
def normalizeWith (low : Char → Char) (t : List Char) : List Char :=
  match t.findIdx? isEnglishLetter with
  | none => []
  | some i =>
    if (normalizeWithClean low (t.drop i))[1]? == some '.' then
      (normalizeWithClean low (t.drop i)).drop 2
    else normalizeWithClean low (t.drop i)

/-- The normalizer exactly as claim C6 states it: only ASCII letters are
lowercased, every other character is kept as written. -/
def normalizeSpec (t : List Char) : List Char :=
  normalizeWith asciiLowerChar t

/-- The normalizer as amended: all cased letters are lowercased by the
Unicode simple lowercase mapping, which is what `strings.ToLower` does. -/
def normalizeSpecUnicode (t : List Char) : List Char :=
  normalizeWith toLowerChar t

/-- Erase the pending-tab bookkeeping from a state. -/
def stripTabsState (s : SyncState) : SyncState :=
  { s with tabsToAdd := [] }

/-- Erase the pending-tab bookkeeping from a run result. -/
def stripTabs : RunResult → RunResult
  | .ok s => .ok (stripTabsState s)
  | r => r

/-- Pointwise lifting of a character relation to two lists of the same
length. -/
def pairwiseB (R : Char → Char → Bool) : List Char → List Char → Bool
  | [], [] => true
  | c :: cs, d :: ds => R c d && pairwiseB R cs ds
  | _, _ => false

/-- Two characters that are equal, or are the same ASCII letter in possibly
different cases. -/
def caseVariant (c d : Char) : Bool :=
  c == d || (isEnglishLetter c && isEnglishLetter d && (toLowerChar c == toLowerChar d))

/-- Quotation-mark characters: the ASCII double quote and the four curly
quotation marks. -/
def isQuotationMark (c : Char) : Bool :=
  c == '"' || c == '“' || c == '”' || c == '‘' || c == '’'

/-- Two characters that are equal, or are both quotation marks. -/
def quoteVariant (c d : Char) : Bool :=
  c == d || (isQuotationMark c && isQuotationMark d)

/-- The source stream of the concrete run in claim C2. -/
def c2Source : List Line :=
  [⟨"Title: Jesus Christ, the Same".toList, ⟨0⟩⟩]

/-- The target stream of the concrete run in claim C2. -/
def c2Target : List Line :=
  [⟨"Title: Jesus Christ, the Same".toList, ⟨0⟩⟩,
   ⟨"耶稣基督".toList, ⟨0⟩⟩,
   ⟨"Title: Jesus Christ, the Same".toList, ⟨0⟩⟩]

/-- The driver state after the two successful iterations of the C2 run. -/
def c2State : SyncState :=
  { sourceRest := []
    sourceLineNum := 1
    targetLineNum := 2
    current := ⟨"Title: Jesus Christ, the Same".toList, ⟨0⟩⟩
    sourceKey := "title:jesuschrist,thesame".toList
    sourceFeatures := ⟨0⟩
    previousFeatures := some ⟨0⟩
    lastProcessedWasChinese := true
    tabsToAdd := [] }

/-!
## Helper lemmas about the classifier and normalizer
-/

example : generateLineKey "1. First Point".toList = "firstpoint".toList := by decide
example : generateLineKey "Title: Jesus Christ, the Same".toList
    = "title:jesuschrist,thesame".toList := by decide
example : classifyLineType "牧师 Alan Fong".toList = .mixed := by decide
example : classifyLineType "123. ,!".toList = .empty := by decide
example : classifyLineType "耶稣基督".toList = .chinese := by decide


/-- A CJK ideograph is not Unicode whitespace. -/
lemma isChineseChar_not_goIsSpace {c : Char} (h : isChineseChar c = true) :
    goIsSpace c = false := by
  simp only [isChineseChar, Bool.and_eq_true, decide_eq_true_eq] at h
  simp only [goIsSpace, Bool.or_eq_false_iff, Bool.and_eq_false_iff,
    beq_eq_false_iff_ne, ne_eq, decide_eq_false_iff_not, not_le]
  omega

/-- If the trimmed text is empty, every character of the text is whitespace. -/
lemma all_goIsSpace_of_trimSpace_nil {t : List Char} (h : trimSpace t = []) :
    ∀ c ∈ t, goIsSpace c = true := by
  unfold trimSpace at h
  rw [List.reverse_eq_nil_iff, List.dropWhile_eq_nil_iff] at h
  intro c hc
  rcases List.mem_append.1 ((List.takeWhile_append_dropWhile (p := goIsSpace) (l := t)) ▸ hc) with
    hm | hm
  · exact List.mem_takeWhile_imp hm
  · exact h c (List.mem_reverse.2 hm)

/-- A text containing a CJK ideograph does not trim to the empty line. -/
lemma trimSpace_ne_nil_of_containsChinese {t : List Char}
    (h : containsChinese t = true) : ¬ trimSpace t = [] := by
  intro hnil
  rcases List.any_eq_true.1 h with ⟨c, hc, hcjk⟩
  have := all_goIsSpace_of_trimSpace_nil hnil c hc
  rw [isChineseChar_not_goIsSpace hcjk] at this
  exact Bool.false_ne_true this

/-- Unicode whitespace is never an ASCII letter. -/
lemma goIsSpace_not_isEnglishLetter {c : Char} (h : goIsSpace c = true) :
    isEnglishLetter c = false := by
  simp only [goIsSpace, Bool.or_eq_true, Bool.and_eq_true, beq_iff_eq,
    decide_eq_true_eq] at h
  simp only [isEnglishLetter, Bool.or_eq_false_iff, Bool.and_eq_false_iff,
    decide_eq_false_iff_not, not_le]
  omega

/-- A text that trims to nothing has the empty normalized key. -/
lemma generateLineKey_eq_nil_of_trimSpace_nil {t : List Char}
    (h : trimSpace t = []) : generateLineKey t = [] := by
  unfold generateLineKey
  rw [if_pos]
  rw [List.isEmpty_iff, List.dropWhile_eq_nil_iff]
  intro c hc
  have hs := goIsSpace_not_isEnglishLetter (all_goIsSpace_of_trimSpace_nil h c hc)
  simp [hs]

/-- A text containing a CJK ideograph classifies as Chinese or Mixed. -/
lemma classify_of_containsChinese {t : List Char} (h : containsChinese t = true) :
    classifyLineType t = .chinese ∨ classifyLineType t = .mixed := by
  have hnil := trimSpace_ne_nil_of_containsChinese h
  unfold classifyLineType
  rw [if_neg (by simpa [List.isEmpty_iff] using hnil)]
  by_cases hk : (generateLineKey t).isEmpty
  · simp [h, hk]
  · simp [h, hk]

/-!
## Claim theorems: the match decision engine
-/

/-- Claim C3: `AnalyzeLineMatch` returns `ShouldAdvanceSource` equal to the
`lastProcessedWasChinese` flag passed in by the caller — a pure pass-through
of caller state, for every combination of texts, snapshot and flag. -/
theorem shouldAdvanceSource_is_passthrough
    (sourceText targetText : List Char) (previousFeatures : Option LineFeatures)
    (lastAdvanceFlag : Bool) :
    (AnalyzeLineMatch sourceText targetText previousFeatures
      lastAdvanceFlag).shouldAdvanceSource = lastAdvanceFlag := rfl

/-- Witness for `shouldAdvanceSource_is_passthrough` at a concrete input
whose target classification (Chinese) differs from the flag reported. -/
theorem shouldAdvanceSource_is_passthrough_witness :
    (AnalyzeLineMatch "Hello".toList "你好".toList none true).shouldAdvanceSource
      = true :=
  shouldAdvanceSource_is_passthrough "Hello".toList "你好".toList none true

/-- Claim C9, counterexample: for the pure-Chinese text `"你好"` used as both
source and target (with no previous snapshot), the decision's `LineType` is
Chinese — not Primary as the claim states for every text — and the spacer
decision is true, not false. -/
theorem analyze_identical_texts_counterexample :
    (AnalyzeLineMatch "你好".toList "你好".toList none false).lineType ≠
        LineType.english ∧
      (AnalyzeLineMatch "你好".toList "你好".toList none false).shouldAddEmptyLine
        = true := by
  constructor
  · decide
  · decide

/-- Claim C9, amended: for every text that classifies as Primary (English),
calling the decision engine with that text as both source and target yields
LineType = Primary, LinesMatch = true, ShouldFollowPrevStyle = false and
ShouldAddEmptyLine = false (with ShouldAdvanceSource mirroring the flag). -/
theorem analyze_identical_primary_texts (t : List Char)
    (prev : Option LineFeatures) (flag : Bool)
    (h : classifyLineType t = .english) :
    AnalyzeLineMatch t t prev flag =
      { lineType := .english
        linesMatch := true
        shouldFollowPrevStyle := false
        shouldAddEmptyLine := false
        shouldAdvanceSource := flag } := by
  unfold AnalyzeLineMatch shouldAddEmptyLine shouldFollowPreviousLineStyle
    shouldAdvanceSourceCursor linesMatch
  simp [h]

/-- Witness for `analyze_identical_primary_texts` at the text `"Hello"`. -/
theorem analyze_identical_primary_texts_witness :
    AnalyzeLineMatch "Hello".toList "Hello".toList none false =
      { lineType := .english
        linesMatch := true
        shouldFollowPrevStyle := false
        shouldAddEmptyLine := false
        shouldAdvanceSource := false } :=
  analyze_identical_primary_texts "Hello".toList none false (by decide)

/-!
## Claim C2: the concrete three-line-target run
-/

/-- Claim C2, counterexample: the run over source `["Title: Jesus Christ,
the Same"]` and the three-line target does NOT fail with a `SyncError` as
the claim states.  When the required source advance at the third target
line hits end-of-document, the main loop `break`s (main.go lines 985-988):
the run returns successfully, with target line 3 never processed. -/
theorem c2_run_counterexample :
    synchronizeDocuments c2Source c2Target 1 = .ok c2State := by decide

/-- Claim C2, amended: the run matches target line 1 against source line 1
without advancing the source cursor, treats target line 2 as Secondary
(setting the advance flag), and on target line 3 attempts to advance the
source cursor, hits source exhaustion, and terminates successfully with
target line 3 unprocessed — exhaustion during a required advance ends the
run normally (it is not reported as a `SyncError`). -/
theorem c2_run_trace :
    (AnalyzeLineMatch "Title: Jesus Christ, the Same".toList
        "Title: Jesus Christ, the Same".toList none false).linesMatch = true
    ∧ (AnalyzeLineMatch "Title: Jesus Christ, the Same".toList
        "Title: Jesus Christ, the Same".toList none false).shouldAdvanceSource
          = false
    ∧ classifyLineType "耶稣基督".toList = .chinese
    ∧ c2State.lastProcessedWasChinese = true
    ∧ shouldAdvanceSourceCursor c2State.lastProcessedWasChinese = true
    ∧ advanceIfNeeded c2State = none
    ∧ synchronizeDocuments c2Source c2Target 1 = .ok c2State
    ∧ c2State.targetLineNum = 2 ∧ c2State.sourceLineNum = 1 := by
  refine ⟨by decide, rfl, by decide, rfl, rfl, by decide, by decide, rfl, rfl⟩

/-!
## Claim C5: the classifier characterization
-/

/-- Claim C5: classification is a function of the text alone and satisfies:
Empty when the trimmed text is empty; otherwise Mixed when the text both
contains a code point in U+4E00..U+9FFF and normalizes to a non-empty key,
Secondary (Chinese) when only the former holds, Primary (English) when only
the latter holds, Empty when neither holds.  In particular the non-blank
digits-and-punctuation line `"12, 3!"` classifies as Empty. -/
theorem classifyLineType_characterization :
    (∀ t : List Char,
      (classifyLineType t = .empty ↔
        (trimSpace t = [] ∨
          (¬(∃ c ∈ t, isChineseChar c = true) ∧ generateLineKey t = [])))
      ∧ (classifyLineType t = .mixed ↔
          (trimSpace t ≠ [] ∧ (∃ c ∈ t, isChineseChar c = true) ∧
            generateLineKey t ≠ []))
      ∧ (classifyLineType t = .chinese ↔
          (trimSpace t ≠ [] ∧ (∃ c ∈ t, isChineseChar c = true) ∧
            generateLineKey t = []))
      ∧ (classifyLineType t = .english ↔
          (trimSpace t ≠ [] ∧ ¬(∃ c ∈ t, isChineseChar c = true) ∧
            generateLineKey t ≠ [])))
    ∧ classifyLineType "12, 3!".toList = .empty
    ∧ trimSpace "12, 3!".toList ≠ [] := by
  refine ⟨fun t => ?_, by decide, by decide⟩
  have hany : containsChinese t = true ↔ ∃ c ∈ t, isChineseChar c = true := by
    simp [containsChinese, List.any_eq_true]
  by_cases htrim : trimSpace t = []
  · have hcn : ¬∃ c ∈ t, isChineseChar c = true := by
      rintro ⟨c, hc, hcjk⟩
      exact trimSpace_ne_nil_of_containsChinese
        (List.any_eq_true.2 ⟨c, hc, hcjk⟩) htrim
    unfold classifyLineType
    rw [if_pos (by simpa [List.isEmpty_iff] using htrim)]
    have hkey := generateLineKey_eq_nil_of_trimSpace_nil htrim
    simp [htrim, hcn, hkey]
  · unfold classifyLineType
    rw [if_neg (by simpa [List.isEmpty_iff] using htrim)]
    by_cases hch : containsChinese t
    · by_cases hk : (generateLineKey t).isEmpty
      · have hk' : generateLineKey t = [] := List.isEmpty_iff.1 hk
        simp [hch, hk, htrim, hany.1 hch, hk']
      · have hk' : generateLineKey t ≠ [] := fun h => hk (List.isEmpty_iff.2 h)
        simp [hch, hk, htrim, hany.1 hch, hk']
    · have hcn : ¬∃ c ∈ t, isChineseChar c = true := fun h => hch (hany.2 h)
      by_cases hk : (generateLineKey t).isEmpty
      · have hk' : generateLineKey t = [] := List.isEmpty_iff.1 hk
        simp [hch, hk, htrim, hcn, hk']
      · have hk' : generateLineKey t ≠ [] := fun h => hk (List.isEmpty_iff.2 h)
        simp [hch, hk, htrim, hcn, hk']

/-- Witness for `classifyLineType_characterization` at the digits-and-
punctuation line. -/
theorem classifyLineType_characterization_witness :
    classifyLineType "12, 3!".toList = .empty ↔
      (trimSpace "12, 3!".toList = [] ∨
        (¬(∃ c ∈ "12, 3!".toList, isChineseChar c = true) ∧
          generateLineKey "12, 3!".toList = [])) :=
  (classifyLineType_characterization.1 "12, 3!".toList).1

/-!
## Claim C6: the normalizer against the specification wording
-/

/-- `dotTrim` agrees with the spec's "second character is a period" step. -/
lemma dotTrim_eq_getElem (k : List Char) :
    dotTrim k = if k[1]? == some '.' then k.drop 2 else k := by
  match k with
  | [] => simp [dotTrim]
  | [a] => simp [dotTrim]
  | a :: b :: rest =>
    simp only [dotTrim, List.getElem?_cons_succ, List.getElem?_cons_zero,
      List.drop_succ_cons, List.drop_zero]
    by_cases hb : b = '.'
    · simp [hb]
    · simp [hb]

/-- Claim C6, counterexample: on the text `A Été` the program lowercases
the non-ASCII letter `É` — `strings.ToLower` applies the Unicode simple
lowercase mapping to every cased letter — producing the key `aété`,
whereas the normalization described by the claim (only ASCII letters
lowercased, everything else retained) yields `aÉté`.  The claim is false
of the program. -/
theorem normalizeSpec_ascii_counterexample :
    generateLineKey "A Été".toList = "aété".toList
    ∧ normalizeSpec "A Été".toList = "aÉté".toList
    ∧ generateLineKey "A Été".toList ≠ normalizeSpec "A Été".toList := by
  refine ⟨by decide, by decide, by decide⟩

/-- Claim C6, amended: for every text, `generateLineKey` returns the empty
string when the text contains no ASCII letter; otherwise the substring
from the first ASCII letter to the end with every whitespace character
removed and all cased letters lowercased by the Unicode simple lowercase
mapping (as Go's `strings.ToLower`), then with the first two characters
dropped when the second character of that result is a period; in
particular `normalize("1. First Point") = normalize("First Point") =
"firstpoint"`. -/
theorem generateLineKey_eq_normalizeSpecUnicode :
    (∀ t : List Char, generateLineKey t = normalizeSpecUnicode t)
    ∧ generateLineKey "1. First Point".toList
        = generateLineKey "First Point".toList
    ∧ generateLineKey "First Point".toList = "firstpoint".toList := by
  refine ⟨fun t => ?_, by decide, by decide⟩
  induction t with
  | nil => decide
  | cons c t ih =>
    by_cases hc : isEnglishLetter c
    · unfold generateLineKey normalizeSpecUnicode normalizeWith
      rw [List.dropWhile_cons, List.findIdx?_cons]
      simp only [hc, Bool.not_true, if_false, if_true, List.isEmpty_cons,
        List.drop_zero]
      rw [dotTrim_eq_getElem]
      rfl
    · have hdrop : (c :: t).dropWhile (fun c => !isEnglishLetter c)
          = t.dropWhile (fun c => !isEnglishLetter c) := by
        rw [List.dropWhile_cons]
        simp [hc]
      have hfind : (c :: t).findIdx? isEnglishLetter
          = (t.findIdx? isEnglishLetter).map fun i => i + 1 := by
        simp [List.findIdx?_cons, List.findIdx?_succ, hc]
      have hkey : generateLineKey (c :: t) = generateLineKey t := by
        unfold generateLineKey
        rw [hdrop]
      have hspec : normalizeSpecUnicode (c :: t) = normalizeSpecUnicode t := by
        unfold normalizeSpecUnicode normalizeWith
        rw [hfind]
        match hfi : t.findIdx? isEnglishLetter with
        | none => simp
        | some i => simp [List.drop_succ_cons]
      rw [hkey, hspec, ih]

/-- Witness for `generateLineKey_eq_normalizeSpecUnicode` at a line with a
non-ASCII cased letter after the first ASCII letter. -/
theorem generateLineKey_eq_normalizeSpecUnicode_witness :
    generateLineKey "A Été".toList = normalizeSpecUnicode "A Été".toList :=
  generateLineKey_eq_normalizeSpecUnicode.1 "A Été".toList

/-!
## Claim C8: the remaining decision fields
-/

/-- Claim C8: for every input, `LinesMatch` holds iff the two normalized
keys are equal, `ShouldFollowPrevStyle` holds iff the target line is
Secondary (Chinese) or Mixed and the previous snapshot is present,
`ShouldAddEmptyLine` holds iff the target line is Secondary or Mixed, and
in particular any target line containing CJK characters together with a
present previous snapshot yields `ShouldFollowPrevStyle = true` and
`ShouldAddEmptyLine = true` regardless of the keys. -/
theorem analyzeLineMatch_decision_fields
    (st tt : List Char) (prev : Option LineFeatures) (flag : Bool) :
    ((AnalyzeLineMatch st tt prev flag).linesMatch = true ↔
      generateLineKey st = generateLineKey tt)
    ∧ ((AnalyzeLineMatch st tt prev flag).shouldFollowPrevStyle = true ↔
        ((classifyLineType tt = .chinese ∨ classifyLineType tt = .mixed) ∧
          prev.isSome = true))
    ∧ ((AnalyzeLineMatch st tt prev flag).shouldAddEmptyLine = true ↔
        (classifyLineType tt = .chinese ∨ classifyLineType tt = .mixed))
    ∧ (containsChinese tt = true → prev.isSome = true →
        (AnalyzeLineMatch st tt prev flag).shouldFollowPrevStyle = true ∧
          (AnalyzeLineMatch st tt prev flag).shouldAddEmptyLine = true) := by
  unfold AnalyzeLineMatch shouldAddEmptyLine shouldFollowPreviousLineStyle
    linesMatch
  refine ⟨by simp, by simp, by simp, fun hch hprev => ?_⟩
  rcases classify_of_containsChinese hch with h | h <;> simp [h, hprev]

/-- Witness for `analyzeLineMatch_decision_fields`: a Chinese target line
with a present previous snapshot follows the previous style and gets a
spacer, although the keys do not match. -/
theorem analyzeLineMatch_decision_fields_witness :
    (AnalyzeLineMatch "Hello".toList "你好".toList (some ⟨0⟩)
        false).shouldFollowPrevStyle = true
    ∧ (AnalyzeLineMatch "Hello".toList "你好".toList (some ⟨0⟩)
        false).shouldAddEmptyLine = true :=
  (analyzeLineMatch_decision_fields "Hello".toList "你好".toList (some ⟨0⟩)
    false).2.2.2 (by decide) (by decide)

/-!
## Claim C10: Empty-classified target lines in the driver loop
-/

/-- An Empty-classified line has the empty normalized key (the classifier
and the normalizer agree). -/
lemma generateLineKey_eq_nil_of_classify_empty {t : List Char}
    (h : classifyLineType t = .empty) : generateLineKey t = [] := by
  by_cases htrim : trimSpace t = []
  · exact generateLineKey_eq_nil_of_trimSpace_nil htrim
  · unfold classifyLineType at h
    rw [if_neg (by simpa [List.isEmpty_iff] using htrim)] at h
    by_cases hch : containsChinese t <;>
      by_cases hk : (generateLineKey t).isEmpty <;>
      simp_all [List.isEmpty_iff]

/-- Claim C10: in the driver loop, a target line classified Empty is handled
by the Primary (English) branch — never the Secondary/Mixed branch: its
empty key is compared against the current source key, raising a `SyncError`
carrying both keys unless the current source key is also empty, in which
case the iteration continues with `lastProcessedWasChinese = false`, so the
source cursor will not advance on the next iteration. -/
theorem empty_target_line_primary_branch
    (loopID : Nat) (s : SyncState) (t : Line)
    (hty : classifyLineType t.text = .empty)
    (hinv : s.sourceKey = generateLineKey s.current.text) :
    generateLineKey t.text = []
    ∧ (s.sourceKey ≠ [] →
        processTarget loopID s t = Sum.inl
          { sourceLine := s.sourceLineNum
            targetLine := s.targetLineNum + 1
            sourceKey := s.sourceKey
            targetKey := []
            message := "Line content mismatch" })
    ∧ (s.sourceKey = [] → ∃ s2,
        processTarget loopID s t = Sum.inr s2
        ∧ s2.lastProcessedWasChinese = false
        ∧ shouldAdvanceSourceCursor s2.lastProcessedWasChinese = false) := by
  have hknil := generateLineKey_eq_nil_of_classify_empty hty
  refine ⟨hknil, fun hne => ?_, fun heq => ?_⟩
  · have hbeq : (generateLineKey s.current.text == generateLineKey t.text) = false := by
      rw [hknil, ← hinv]
      simpa using hne
    simp only [processTarget, AnalyzeLineMatch, shouldAddEmptyLine,
      shouldFollowPreviousLineStyle, shouldAdvanceSourceCursor, linesMatch]
    simp [hty, hbeq, hknil]
    rw [← hinv]
    exact hne
  · have hbeq : (generateLineKey s.current.text == generateLineKey t.text) = true := by
      rw [hknil, ← hinv]
      simpa using heq
    have hout : processTarget loopID s t = Sum.inr
        { s with
          targetLineNum := s.targetLineNum + 1
          tabsToAdd := if s.sourceFeatures.leadingTabs > 0 then
              s.tabsToAdd ++ [(loopID, s.sourceFeatures.leadingTabs)]
            else s.tabsToAdd
          previousFeatures := some s.sourceFeatures
          lastProcessedWasChinese := false } := by
      simp only [processTarget, AnalyzeLineMatch, shouldAddEmptyLine,
        shouldFollowPreviousLineStyle, shouldAdvanceSourceCursor, linesMatch]
      simp [hty, hbeq]
    exact ⟨_, hout, rfl, rfl⟩

/-- Witness for `empty_target_line_primary_branch`: the digits-only target
line `"123."` against the current source line `"Hello"` raises the
mismatch. -/
theorem empty_target_line_primary_branch_witness :
    generateLineKey "123.".toList = []
    ∧ processTarget 1
        { sourceRest := []
          sourceLineNum := 1
          targetLineNum := 0
          current := ⟨"Hello".toList, ⟨0⟩⟩
          sourceKey := "hello".toList
          sourceFeatures := ⟨0⟩
          previousFeatures := none
          lastProcessedWasChinese := false
          tabsToAdd := [] }
        ⟨"123.".toList, ⟨0⟩⟩ = Sum.inl
          { sourceLine := 1
            targetLine := 1
            sourceKey := "hello".toList
            targetKey := []
            message := "Line content mismatch" } := by
  have h := empty_target_line_primary_branch 1
    { sourceRest := []
      sourceLineNum := 1
      targetLineNum := 0
      current := ⟨"Hello".toList, ⟨0⟩⟩
      sourceKey := "hello".toList
      sourceFeatures := ⟨0⟩
      previousFeatures := none
      lastProcessedWasChinese := false
      tabsToAdd := [] }
    ⟨"123.".toList, ⟨0⟩⟩ (by decide) (by decide)
  exact ⟨h.1, h.2.1 (by decide)⟩

/-!
## Claim C1: the SyncError discipline of the driver loop

Shape lemmas for the three exits of `processTarget`, followed by the
characterization theorem.
-/

/-- `processTarget` on a Chinese or Mixed target line: always continues,
setting the advance flag, never touching the source cursor data. -/
lemma processTarget_chinese_mixed {l : Nat} {s : SyncState} {t : Line}
    (h : classifyLineType t.text = .chinese ∨ classifyLineType t.text = .mixed) :
    processTarget l s t = Sum.inr
      { s with
        targetLineNum := s.targetLineNum + 1
        tabsToAdd :=
          match s.previousFeatures with
          | some pf => if pf.leadingTabs > 0 then s.tabsToAdd ++ [(l, pf.leadingTabs)]
              else s.tabsToAdd
          | none => s.tabsToAdd
        lastProcessedWasChinese := true } := by
  simp only [processTarget, AnalyzeLineMatch, shouldAddEmptyLine,
    shouldFollowPreviousLineStyle, shouldAdvanceSourceCursor, linesMatch]
  rcases h with h | h <;> simp [h]

/-- `processTarget` on a non-Chinese, non-Mixed target line whose key
differs from the current source key: returns the `SyncError` with both
line numbers and both keys. -/
lemma processTarget_mismatch {l : Nat} {s : SyncState} {t : Line}
    (hc : classifyLineType t.text ≠ .chinese)
    (hm : classifyLineType t.text ≠ .mixed)
    (hk : generateLineKey s.current.text ≠ generateLineKey t.text) :
    processTarget l s t = Sum.inl
      { sourceLine := s.sourceLineNum
        targetLine := s.targetLineNum + 1
        sourceKey := s.sourceKey
        targetKey := generateLineKey t.text
        message := "Line content mismatch" } := by
  simp only [processTarget, AnalyzeLineMatch, shouldAddEmptyLine,
    shouldFollowPreviousLineStyle, shouldAdvanceSourceCursor, linesMatch]
  simp [hc, hm, hk]

/-- `processTarget` on a non-Chinese, non-Mixed target line whose key
equals the current source key: continues, retaining the source features and
clearing the advance flag. -/
lemma processTarget_match {l : Nat} {s : SyncState} {t : Line}
    (hc : classifyLineType t.text ≠ .chinese)
    (hm : classifyLineType t.text ≠ .mixed)
    (hk : generateLineKey s.current.text = generateLineKey t.text) :
    processTarget l s t = Sum.inr
      { s with
        targetLineNum := s.targetLineNum + 1
        tabsToAdd := if s.sourceFeatures.leadingTabs > 0 then
            s.tabsToAdd ++ [(l, s.sourceFeatures.leadingTabs)]
          else s.tabsToAdd
        previousFeatures := some s.sourceFeatures
        lastProcessedWasChinese := false } := by
  simp only [processTarget, AnalyzeLineMatch, shouldAddEmptyLine,
    shouldFollowPreviousLineStyle, shouldAdvanceSourceCursor, linesMatch]
  simp [hc, hm, hk]

/-- Source-cursor advancement preserves the invariant that `sourceKey` is
the normalized key of the current source line. -/
lemma advanceIfNeeded_preserves_inv {s s1 : SyncState}
    (h : advanceIfNeeded s = some s1)
    (hinv : s.sourceKey = generateLineKey s.current.text) :
    s1.sourceKey = generateLineKey s1.current.text := by
  unfold advanceIfNeeded at h
  by_cases hf : shouldAdvanceSourceCursor s.lastProcessedWasChinese
  · rw [if_pos hf] at h
    match hrest : s.sourceRest with
    | [] => rw [hrest] at h; cases h
    | line :: rest =>
      rw [hrest] at h
      cases h
      rfl
  · rw [if_neg hf] at h
    cases h
    exact hinv

/-- A continuing `processTarget` step never changes the current source line
or its key. -/
lemma processTarget_inr_preserves {l : Nat} {s s2 : SyncState} {t : Line}
    (h : processTarget l s t = Sum.inr s2) :
    s2.current = s.current ∧ s2.sourceKey = s.sourceKey := by
  by_cases hcm : classifyLineType t.text = .chinese ∨ classifyLineType t.text = .mixed
  · rw [processTarget_chinese_mixed hcm] at h
    cases h
    exact ⟨rfl, rfl⟩
  · push_neg at hcm
    by_cases hk : generateLineKey s.current.text = generateLineKey t.text
    · rw [processTarget_match hcm.1 hcm.2 hk] at h
      cases h
      exact ⟨rfl, rfl⟩
    · rw [processTarget_mismatch hcm.1 hcm.2 hk] at h
      cases h

/-- Claim C1: during a run, an iteration raises a `SyncError` exactly when
the pulled target line classifies neither Chinese nor Mixed and its
normalized key differs from the current source line's key; the error
carries the current source line number, the target line number and both
normalized keys; a raised error aborts the run immediately (the remaining
target lines are irrelevant to the result); and every `SyncError` a run
returns originates from such an iteration — in particular Chinese/Mixed
target lines never raise one. -/
theorem syncError_characterization :
    (∀ (l : Nat) (s : SyncState) (t : Line),
      s.sourceKey = generateLineKey s.current.text →
      (((∃ e, processTarget l s t = Sum.inl e) ↔
          (classifyLineType t.text ≠ .chinese ∧ classifyLineType t.text ≠ .mixed ∧
            generateLineKey t.text ≠ s.sourceKey))
        ∧ ∀ e, processTarget l s t = Sum.inl e →
            e = { sourceLine := s.sourceLineNum
                  targetLine := s.targetLineNum + 1
                  sourceKey := s.sourceKey
                  targetKey := generateLineKey t.text
                  message := "Line content mismatch" }))
    ∧ (∀ (l : Nat) (s s1 : SyncState) (t : Line) (ts : List Line) (e : SyncError),
        advanceIfNeeded s = some s1 → processTarget l s1 t = Sum.inl e →
        runFrom l s (t :: ts) = .syncError e)
    ∧ (∀ (l : Nat) (s : SyncState) (ts : List Line) (e : SyncError),
        s.sourceKey = generateLineKey s.current.text →
        runFrom l s ts = .syncError e →
        ∃ (l2 : Nat) (s1 : SyncState) (t : Line),
          s1.sourceKey = generateLineKey s1.current.text ∧
          processTarget l2 s1 t = Sum.inl e) := by
  refine ⟨fun l s t hinv => ⟨⟨?_, ?_⟩, ?_⟩, ?_, ?_⟩
  · rintro ⟨e, he⟩
    by_cases hcm : classifyLineType t.text = .chinese ∨ classifyLineType t.text = .mixed
    · rw [processTarget_chinese_mixed hcm] at he
      cases he
    · push_neg at hcm
      by_cases hk : generateLineKey s.current.text = generateLineKey t.text
      · rw [processTarget_match hcm.1 hcm.2 hk] at he
        cases he
      · exact ⟨hcm.1, hcm.2, fun hh => hk (by rw [← hinv, hh])⟩
  · rintro ⟨hc, hm, hk⟩
    exact ⟨_, processTarget_mismatch hc hm (fun hh => hk (by rw [← hh, hinv]))⟩
  · intro e he
    by_cases hcm : classifyLineType t.text = .chinese ∨ classifyLineType t.text = .mixed
    · rw [processTarget_chinese_mixed hcm] at he
      cases he
    · push_neg at hcm
      by_cases hk : generateLineKey s.current.text = generateLineKey t.text
      · rw [processTarget_match hcm.1 hcm.2 hk] at he
        cases he
      · rw [processTarget_mismatch hcm.1 hcm.2 hk] at he
        cases he
        rfl
  · intro l s s1 t ts e hadv hproc
    unfold runFrom
    rw [hadv]
    dsimp only
    rw [hproc]
  · intro l s ts e hinv hrun
    induction ts generalizing l s with
    | nil =>
      unfold runFrom at hrun
      match hadv : advanceIfNeeded s with
      | none => rw [hadv] at hrun; cases hrun
      | some s1 => rw [hadv] at hrun; cases hrun
    | cons t ts ih =>
      unfold runFrom at hrun
      match hadv : advanceIfNeeded s with
      | none => rw [hadv] at hrun; cases hrun
      | some s1 =>
        rw [hadv] at hrun
        dsimp only at hrun
        have hinv1 := advanceIfNeeded_preserves_inv hadv hinv
        match hproc : processTarget l s1 t with
        | Sum.inl e2 =>
          rw [hproc] at hrun
          cases hrun
          exact ⟨l, s1, t, hinv1, hproc⟩
        | Sum.inr s2 =>
          rw [hproc] at hrun
          have hpres := processTarget_inr_preserves hproc
          exact ih (l + 1) s2 (by rw [hpres.2, hpres.1, hinv1]) hrun

/-- Witness for `syncError_characterization`: a concrete mismatching
English target line aborts the run with the expected error. -/
theorem syncError_characterization_witness :
    runFrom 1
      { sourceRest := []
        sourceLineNum := 1
        targetLineNum := 0
        current := ⟨"Hello".toList, ⟨0⟩⟩
        sourceKey := "hello".toList
        sourceFeatures := ⟨0⟩
        previousFeatures := none
        lastProcessedWasChinese := false
        tabsToAdd := [] }
      [⟨"World".toList, ⟨0⟩⟩] = .syncError
        { sourceLine := 1
          targetLine := 1
          sourceKey := "hello".toList
          targetKey := "world".toList
          message := "Line content mismatch" } :=
  syncError_characterization.2.1 1
    { sourceRest := []
      sourceLineNum := 1
      targetLineNum := 0
      current := ⟨"Hello".toList, ⟨0⟩⟩
      sourceKey := "hello".toList
      sourceFeatures := ⟨0⟩
      previousFeatures := none
      lastProcessedWasChinese := false
      tabsToAdd := [] }
    { sourceRest := []
      sourceLineNum := 1
      targetLineNum := 0
      current := ⟨"Hello".toList, ⟨0⟩⟩
      sourceKey := "hello".toList
      sourceFeatures := ⟨0⟩
      previousFeatures := none
      lastProcessedWasChinese := false
      tabsToAdd := [] }
    ⟨"World".toList, ⟨0⟩⟩ [] _ (by decide) (by decide)

/-!
## Claim C4: fast-forward equivalence

The only trace the formatting side effects leave inside the driver state is
the pending-tab bookkeeping (`tabsToAdd`), which the fast-forward loop
skips and which never influences control flow.  Erasing that field
therefore compares runs up to formatting bookkeeping: equality under
`stripTabs` includes equality of the final `lastProcessedWasChinese` flag
and of both line numbers.
-/

lemma stripTabsState_idem (s : SyncState) :
    stripTabsState (stripTabsState s) = stripTabsState s := rfl

/-- Source advancement commutes with erasing the pending-tab bookkeeping. -/
lemma advanceIfNeeded_strip (s : SyncState) :
    advanceIfNeeded (stripTabsState s) = (advanceIfNeeded s).map stripTabsState := by
  unfold advanceIfNeeded stripTabsState shouldAdvanceSourceCursor
  by_cases hf : s.lastProcessedWasChinese
  · simp only [hf]
    cases s.sourceRest <;> simp
  · simp [hf]

/-- `ffProcessTarget` on a Chinese or Mixed target line. -/
lemma ffProcessTarget_chinese_mixed {s : SyncState} {t : Line}
    (h : classifyLineType t.text = .chinese ∨ classifyLineType t.text = .mixed) :
    ffProcessTarget s t = Sum.inr
      { s with
        targetLineNum := s.targetLineNum + 1
        lastProcessedWasChinese := true } := by
  simp only [ffProcessTarget, AnalyzeLineMatch, shouldAddEmptyLine,
    shouldFollowPreviousLineStyle, shouldAdvanceSourceCursor, linesMatch]
  rcases h with h | h <;> simp [h]

/-- `ffProcessTarget` on a mismatching Primary-type target line. -/
lemma ffProcessTarget_mismatch {s : SyncState} {t : Line}
    (hc : classifyLineType t.text ≠ .chinese)
    (hm : classifyLineType t.text ≠ .mixed)
    (hk : generateLineKey s.current.text ≠ generateLineKey t.text) :
    ffProcessTarget s t = Sum.inl
      { sourceLine := s.sourceLineNum
        targetLine := s.targetLineNum + 1
        sourceKey := s.sourceKey
        targetKey := generateLineKey t.text
        message := "Line content mismatch" } := by
  simp only [ffProcessTarget, AnalyzeLineMatch, shouldAddEmptyLine,
    shouldFollowPreviousLineStyle, shouldAdvanceSourceCursor, linesMatch]
  simp [hc, hm, hk]

/-- `ffProcessTarget` on a matching Primary-type target line. -/
lemma ffProcessTarget_match {s : SyncState} {t : Line}
    (hc : classifyLineType t.text ≠ .chinese)
    (hm : classifyLineType t.text ≠ .mixed)
    (hk : generateLineKey s.current.text = generateLineKey t.text) :
    ffProcessTarget s t = Sum.inr
      { s with
        targetLineNum := s.targetLineNum + 1
        previousFeatures := some s.sourceFeatures
        lastProcessedWasChinese := false } := by
  simp only [ffProcessTarget, AnalyzeLineMatch, shouldAddEmptyLine,
    shouldFollowPreviousLineStyle, shouldAdvanceSourceCursor, linesMatch]
  simp [hc, hm, hk]

/-- A fast-forward iteration agrees with a main-loop iteration up to the
pending-tab bookkeeping. -/
lemma ffProcessTarget_strip (l : Nat) (s : SyncState) (t : Line) :
    Sum.map id stripTabsState (ffProcessTarget s t)
      = Sum.map id stripTabsState (processTarget l s t) := by
  by_cases hcm : classifyLineType t.text = .chinese ∨ classifyLineType t.text = .mixed
  · rw [ffProcessTarget_chinese_mixed hcm, processTarget_chinese_mixed hcm]
    rfl
  · push_neg at hcm
    by_cases hk : generateLineKey s.current.text = generateLineKey t.text
    · rw [ffProcessTarget_match hcm.1 hcm.2 hk, processTarget_match hcm.1 hcm.2 hk]
      rfl
    · rw [ffProcessTarget_mismatch hcm.1 hcm.2 hk, processTarget_mismatch hcm.1 hcm.2 hk]

/-- A main-loop iteration's outcome depends on its input state only through
the tab-erased state. -/
lemma processTarget_strip (l : Nat) (s : SyncState) (t : Line) :
    Sum.map id stripTabsState (processTarget l (stripTabsState s) t)
      = Sum.map id stripTabsState (processTarget l s t) := by
  by_cases hcm : classifyLineType t.text = .chinese ∨ classifyLineType t.text = .mixed
  · rw [processTarget_chinese_mixed hcm, processTarget_chinese_mixed hcm]
    rfl
  · push_neg at hcm
    by_cases hk : generateLineKey s.current.text = generateLineKey t.text
    · rw [processTarget_match hcm.1 hcm.2 hk,
        processTarget_match hcm.1 hcm.2 (show generateLineKey
          (stripTabsState s).current.text = generateLineKey t.text from hk)]
      rfl
    · rw [processTarget_mismatch hcm.1 hcm.2 hk,
        processTarget_mismatch hcm.1 hcm.2 (show generateLineKey
          (stripTabsState s).current.text ≠ generateLineKey t.text from hk)]
      rfl

/-- Equation lemma: the main loop on a required advance hitting source
exhaustion. -/
lemma runFrom_advance_none {l : Nat} {s : SyncState} {ts : List Line}
    (h : advanceIfNeeded s = none) : runFrom l s ts = .ok s := by
  unfold runFrom
  rw [h]

/-- Equation lemma: the main loop on target exhaustion. -/
lemma runFrom_nil {l : Nat} {s s1 : SyncState}
    (h : advanceIfNeeded s = some s1) : runFrom l s [] = .ok s1 := by
  unfold runFrom
  rw [h]

/-- Equation lemma: the main loop on a mismatching iteration. -/
lemma runFrom_cons_inl {l : Nat} {s s1 : SyncState} {t : Line} {ts : List Line}
    {e : SyncError} (h : advanceIfNeeded s = some s1)
    (hp : processTarget l s1 t = Sum.inl e) :
    runFrom l s (t :: ts) = .syncError e := by
  unfold runFrom
  rw [h]
  dsimp only
  rw [hp]

/-- Equation lemma: the main loop on a continuing iteration. -/
lemma runFrom_cons_inr {l : Nat} {s s1 s2 : SyncState} {t : Line}
    {ts : List Line} (h : advanceIfNeeded s = some s1)
    (hp : processTarget l s1 t = Sum.inr s2) :
    runFrom l s (t :: ts) = runFrom (l + 1) s2 ts := by
  conv_lhs => rw [runFrom.eq_def]
  rw [h]
  dsimp only
  rw [hp]

/-- A tab-erased `Sum.map` result that is `inl` came from that `inl`. -/
lemma stripSum_eq_inl {x : SyncError ⊕ SyncState} {e : SyncError}
    (h : Sum.map id stripTabsState x = Sum.inl e) : x = Sum.inl e := by
  cases x with
  | inl e2 => cases h; rfl
  | inr s2 => cases h

/-- A tab-erased `Sum.map` result that is `inr` came from an `inr` with the
same tab-erased state. -/
lemma stripSum_eq_inr {x : SyncError ⊕ SyncState} {s2 : SyncState}
    (h : Sum.map id stripTabsState x = Sum.inr s2) :
    ∃ y, x = Sum.inr y ∧ stripTabsState y = s2 := by
  cases x with
  | inl e2 => cases h
  | inr y => exact ⟨y, rfl, by cases h; rfl⟩

/-- The whole main loop depends on its input state only through the
tab-erased state. -/
lemma runFrom_strip (ts : List Line) : ∀ (l : Nat) (s : SyncState),
    stripTabs (runFrom l (stripTabsState s) ts) = stripTabs (runFrom l s ts) := by
  induction ts with
  | nil =>
    intro l s
    match hadv : advanceIfNeeded s with
    | none =>
      have hadv2 : advanceIfNeeded (stripTabsState s) = none := by
        rw [advanceIfNeeded_strip, hadv]
        rfl
      rw [runFrom_advance_none hadv, runFrom_advance_none hadv2, stripTabs,
        stripTabs, stripTabsState_idem]
    | some s1 =>
      have hadv2 : advanceIfNeeded (stripTabsState s) = some (stripTabsState s1) := by
        rw [advanceIfNeeded_strip, hadv]
        rfl
      rw [runFrom_nil hadv, runFrom_nil hadv2, stripTabs, stripTabs,
        stripTabsState_idem]
  | cons t ts ih =>
    intro l s
    match hadv : advanceIfNeeded s with
    | none =>
      have hadv2 : advanceIfNeeded (stripTabsState s) = none := by
        rw [advanceIfNeeded_strip, hadv]
        rfl
      rw [runFrom_advance_none hadv, runFrom_advance_none hadv2, stripTabs,
        stripTabs, stripTabsState_idem]
    | some s1 =>
      have hadv2 : advanceIfNeeded (stripTabsState s) = some (stripTabsState s1) := by
        rw [advanceIfNeeded_strip, hadv]
        rfl
      have hps := processTarget_strip l s1 t
      match hp : processTarget l s1 t with
      | Sum.inl e =>
        have hps2 : Sum.map id stripTabsState (processTarget l (stripTabsState s1) t)
            = Sum.inl e := by
          rw [hps, hp]
          rfl
        have hp2 := stripSum_eq_inl hps2
        rw [runFrom_cons_inl hadv hp, runFrom_cons_inl hadv2 hp2]
      | Sum.inr s2 =>
        have hps2 : Sum.map id stripTabsState (processTarget l (stripTabsState s1) t)
            = Sum.inr (stripTabsState s2) := by
          rw [hps, hp]
          rfl
        rcases stripSum_eq_inr hps2 with ⟨y, hy, hystrip⟩
        rw [runFrom_cons_inr hadv hp, runFrom_cons_inr hadv2 hy]
        calc stripTabs (runFrom (l + 1) y ts)
            = stripTabs (runFrom (l + 1) (stripTabsState y) ts) := (ih (l + 1) y).symm
          _ = stripTabs (runFrom (l + 1) (stripTabsState s2) ts) := by rw [hystrip]
          _ = stripTabs (runFrom (l + 1) s2 ts) := ih (l + 1) s2

/-- Equation lemma: fast-forward hitting source exhaustion. -/
lemma ffRun_succ_advance_none {k : Nat} {s : SyncState} {ts : List Line}
    (h : advanceIfNeeded s = none) :
    ffRun (k + 1) s ts = .sourceExhausted s.sourceLineNum := by
  unfold ffRun
  rw [h]

/-- Equation lemma: fast-forward hitting target exhaustion. -/
lemma ffRun_succ_nil {k : Nat} {s s1 : SyncState}
    (h : advanceIfNeeded s = some s1) :
    ffRun (k + 1) s [] = .targetExhausted s1.targetLineNum := by
  unfold ffRun
  rw [h]

/-- Equation lemma: fast-forward hitting a mismatch. -/
lemma ffRun_succ_inl {k : Nat} {s s1 : SyncState} {t : Line} {ts : List Line}
    {e : SyncError} (h : advanceIfNeeded s = some s1)
    (hp : ffProcessTarget s1 t = Sum.inl e) :
    ffRun (k + 1) s (t :: ts) = .syncError e := by
  unfold ffRun
  rw [h]
  dsimp only
  rw [hp]

/-- Equation lemma: a continuing fast-forward iteration. -/
lemma ffRun_succ_inr {k : Nat} {s s1 s2 : SyncState} {t : Line}
    {ts : List Line} (h : advanceIfNeeded s = some s1)
    (hp : ffProcessTarget s1 t = Sum.inr s2) :
    ffRun (k + 1) s (t :: ts) = ffRun k s2 ts := by
  conv_lhs => rw [ffRun.eq_def]
  rw [h]
  dsimp only
  rw [hp]

/-- Replaying `k` fast-forward iterations and then continuing agrees (up to
pending-tab bookkeeping) with running the main loop from the start. -/
lemma ffRun_prefix : ∀ (k l : Nat) (s : SyncState) (ts : List Line)
    (s2 : SyncState) (ts2 : List Line),
    ffRun k s ts = .ok s2 ts2 →
    stripTabs (runFrom l s ts) = stripTabs (runFrom (l + k) s2 ts2) := by
  intro k
  induction k with
  | zero =>
    intro l s ts s2 ts2 h
    unfold ffRun at h
    cases h
    rfl
  | succ k ih =>
    intro l s ts s2 ts2 h
    match hadv : advanceIfNeeded s with
    | none => rw [ffRun_succ_advance_none hadv] at h; cases h
    | some s1 =>
      match ts with
      | [] => rw [ffRun_succ_nil hadv] at h; cases h
      | t :: ts' =>
        match hp : ffProcessTarget s1 t with
        | Sum.inl e => rw [ffRun_succ_inl hadv hp] at h; cases h
        | Sum.inr sf =>
          rw [ffRun_succ_inr hadv hp] at h
          have hps := ffProcessTarget_strip l s1 t
          rw [hp] at hps
          have hps2 : Sum.map id stripTabsState (processTarget l s1 t)
              = Sum.inr (stripTabsState sf) := by
            rw [← hps]
            rfl
          rcases stripSum_eq_inr hps2 with ⟨sn, hsn, hsnstrip⟩
          rw [runFrom_cons_inr hadv hsn]
          calc stripTabs (runFrom (l + 1) sn ts')
              = stripTabs (runFrom (l + 1) (stripTabsState sn) ts') :=
                (runFrom_strip ts' (l + 1) sn).symm
            _ = stripTabs (runFrom (l + 1) (stripTabsState sf) ts') := by
                rw [hsnstrip]
            _ = stripTabs (runFrom (l + 1) sf ts') := runFrom_strip ts' (l + 1) sf
            _ = stripTabs (runFrom (l + 1 + k) s2 ts2) := ih (l + 1) sf ts' s2 ts2 h
            _ = stripTabs (runFrom (l + (k + 1)) s2 ts2) := by
                rw [show l + 1 + k = l + (k + 1) from by omega]

/-- Claim C4: whenever the fast-forwarded run reaches iteration N, running
the driver with fast-forward to N followed by normal continuation yields
the same result — in particular the same final `lastProcessedWasChinese`
flag and source/target line numbers — as the non-fast-forwarded run from
iteration 1, up to the pending-tab bookkeeping that fast-forward suppresses
(in this embedding the formatting applications themselves leave no trace in
the driver state, so the run with `startLoop = 1` is exactly the claim's
"run that performs all cursor advancement and mismatch checking identically
but never applies formatting before iteration N"). -/
theorem fastForward_equiv (first : Line) (rest tgt : List Line) (N : Nat)
    (s1 : SyncState) (ts1 : List Line)
    (hN : 1 < N)
    (hff : ffRun (N - 1) (initState first rest) tgt = .ok s1 ts1) :
    stripTabs (synchronizeDocuments (first :: rest) tgt N)
      = stripTabs (synchronizeDocuments (first :: rest) tgt 1)
    ∧ ∀ sA sB, synchronizeDocuments (first :: rest) tgt N = .ok sA →
        synchronizeDocuments (first :: rest) tgt 1 = .ok sB →
        sA.lastProcessedWasChinese = sB.lastProcessedWasChinese
        ∧ sA.sourceLineNum = sB.sourceLineNum
        ∧ sA.targetLineNum = sB.targetLineNum := by
  have hmain : stripTabs (synchronizeDocuments (first :: rest) tgt N)
      = stripTabs (synchronizeDocuments (first :: rest) tgt 1) := by
    unfold synchronizeDocuments
    dsimp only
    rw [if_pos hN, if_neg (by omega : ¬ (1 : Nat) > 1), hff]
    dsimp only
    have h := ffRun_prefix (N - 1) 1 (initState first rest) tgt s1 ts1 hff
    rw [h]
    have harith : 1 + (N - 1) = N := by omega
    rw [harith]
  refine ⟨hmain, fun sA sB hA hB => ?_⟩
  rw [hA, hB] at hmain
  have hss : stripTabsState sA = stripTabsState sB := by
    simpa [stripTabs] using hmain
  have h1 := congrArg SyncState.lastProcessedWasChinese hss
  have h2 := congrArg SyncState.sourceLineNum hss
  have h3 := congrArg SyncState.targetLineNum hss
  exact ⟨h1, h2, h3⟩

/-- Witness for `fastForward_equiv`: a two-line target with fast-forward to
iteration 2. -/
theorem fastForward_equiv_witness :
    stripTabs (synchronizeDocuments [⟨"Hello".toList, ⟨0⟩⟩]
        [⟨"Hello".toList, ⟨0⟩⟩, ⟨"你好".toList, ⟨0⟩⟩] 2)
      = stripTabs (synchronizeDocuments [⟨"Hello".toList, ⟨0⟩⟩]
          [⟨"Hello".toList, ⟨0⟩⟩, ⟨"你好".toList, ⟨0⟩⟩] 1) :=
  (fastForward_equiv ⟨"Hello".toList, ⟨0⟩⟩ []
    [⟨"Hello".toList, ⟨0⟩⟩, ⟨"你好".toList, ⟨0⟩⟩] 2
    { sourceRest := []
      sourceLineNum := 1
      targetLineNum := 1
      current := ⟨"Hello".toList, ⟨0⟩⟩
      sourceKey := "hello".toList
      sourceFeatures := ⟨0⟩
      previousFeatures := some ⟨0⟩
      lastProcessedWasChinese := false
      tabsToAdd := [] }
    [⟨"你好".toList, ⟨0⟩⟩] (by decide) (by decide)).1

/-!
## Claim C7: invariances and punctuation sensitivity of the normalizer
-/

lemma pairwiseB_nil_iff {R : Char → Char → Bool} {t1 t2 : List Char}
    (h : pairwiseB R t1 t2 = true) : t1 = [] ↔ t2 = [] := by
  cases t1 <;> cases t2 <;> simp_all [pairwiseB]

/-- The four whitespace characters stripped by the normalizer are not ASCII
letters. -/
lemma isKeyWhitespace_not_isEnglishLetter {c : Char}
    (h : isKeyWhitespace c = true) : isEnglishLetter c = false := by
  simp only [isKeyWhitespace, Bool.or_eq_true, beq_iff_eq] at h
  rcases h with ((h | h) | h) | h <;> subst h <;> decide

/-- ASCII letters are not whitespace. -/
lemma isEnglishLetter_not_isKeyWhitespace {c : Char}
    (h : isEnglishLetter c = true) : isKeyWhitespace c = false := by
  cases hw : isKeyWhitespace c
  · rfl
  · rw [isKeyWhitespace_not_isEnglishLetter hw] at h
    cases h

lemma isQuotationMark_cases {c : Char} (h : isQuotationMark c = true) :
    c = '"' ∨ c = '“' ∨ c = '”' ∨ c = '‘' ∨ c = '’' := by
  simpa [isQuotationMark, Bool.or_eq_true, beq_iff_eq, or_assoc] using h

/-- Quotation marks are not ASCII letters. -/
lemma isQuotationMark_not_isEnglishLetter {c : Char}
    (h : isQuotationMark c = true) : isEnglishLetter c = false := by
  rcases isQuotationMark_cases h with h | h | h | h | h <;> subst h <;> decide

/-- Quotation marks are not whitespace. -/
lemma isQuotationMark_not_isKeyWhitespace {c : Char}
    (h : isQuotationMark c = true) : isKeyWhitespace c = false := by
  rcases isQuotationMark_cases h with h | h | h | h | h <;> subst h <;> decide

/-- Case folding fixes quotation marks. -/
lemma toLowerChar_quote {c : Char} (h : isQuotationMark c = true) :
    toLowerChar c = c := by
  rcases isQuotationMark_cases h with h | h | h | h | h <;> subst h <;> decide

/-- Case folding of a quotation mark stays a quotation mark. -/
lemma isQuotationMark_toLowerChar {c : Char} (h : isQuotationMark c = true) :
    isQuotationMark (toLowerChar c) = true := by
  rw [toLowerChar_quote h]
  exact h

/-- The period is not a quotation mark. -/
lemma dot_not_quote : isQuotationMark ('.') = false := by decide

lemma caseVariant_letter_eq {c d : Char} (h : caseVariant c d = true) :
    isEnglishLetter c = isEnglishLetter d := by
  simp only [caseVariant, Bool.or_eq_true, Bool.and_eq_true, beq_iff_eq] at h
  rcases h with h | ⟨⟨h1, h2⟩, _⟩
  · rw [h]
  · rw [h1, h2]

lemma caseVariant_ws_eq {c d : Char} (h : caseVariant c d = true) :
    isKeyWhitespace c = isKeyWhitespace d := by
  simp only [caseVariant, Bool.or_eq_true, Bool.and_eq_true, beq_iff_eq] at h
  rcases h with h | ⟨⟨h1, h2⟩, _⟩
  · rw [h]
  · rw [isEnglishLetter_not_isKeyWhitespace h1,
      isEnglishLetter_not_isKeyWhitespace h2]

lemma caseVariant_lower_eq {c d : Char} (h : caseVariant c d = true) :
    toLowerChar c = toLowerChar d := by
  simp only [caseVariant, Bool.or_eq_true, Bool.and_eq_true, beq_iff_eq] at h
  rcases h with h | ⟨_, h3⟩
  · rw [h]
  · exact h3

lemma quoteVariant_letter_eq {c d : Char} (h : quoteVariant c d = true) :
    isEnglishLetter c = isEnglishLetter d := by
  simp only [quoteVariant, Bool.or_eq_true, Bool.and_eq_true, beq_iff_eq] at h
  rcases h with h | ⟨h1, h2⟩
  · rw [h]
  · rw [isQuotationMark_not_isEnglishLetter h1,
      isQuotationMark_not_isEnglishLetter h2]

lemma quoteVariant_ws_eq {c d : Char} (h : quoteVariant c d = true) :
    isKeyWhitespace c = isKeyWhitespace d := by
  simp only [quoteVariant, Bool.or_eq_true, Bool.and_eq_true, beq_iff_eq] at h
  rcases h with h | ⟨h1, h2⟩
  · rw [h]
  · rw [isQuotationMark_not_isKeyWhitespace h1,
      isQuotationMark_not_isKeyWhitespace h2]

/-- A quote-variant pair with a letter on one side is an equal pair. -/
lemma quoteVariant_eq_of_letter {c d : Char} (h : quoteVariant c d = true)
    (hl : isEnglishLetter c = true) : c = d := by
  simp only [quoteVariant, Bool.or_eq_true, Bool.and_eq_true, beq_iff_eq] at h
  rcases h with h | ⟨h1, _⟩
  · exact h
  · rw [isQuotationMark_not_isEnglishLetter h1] at hl
    cases hl

/-- A quote-variant pair whose members are not whitespace-aligned letters:
if either side is a period, both sides are that period. -/
lemma quoteVariant_dot {c d : Char} (h : quoteVariant c d = true) :
    (c = '.' → d = '.') ∧ (d = '.' → c = '.') := by
  simp only [quoteVariant, Bool.or_eq_true, Bool.and_eq_true, beq_iff_eq] at h
  rcases h with h | ⟨h1, h2⟩
  · subst h
    exact ⟨fun h => h, fun h => h⟩
  · constructor
    · intro hc
      rw [hc] at h1
      rw [dot_not_quote] at h1
      cases h1
    · intro hd
      rw [hd] at h2
      rw [dot_not_quote] at h2
      cases h2

/-- Case folding respects the quote-variant relation. -/
lemma quoteVariant_toLowerChar {c d : Char} (h : quoteVariant c d = true) :
    quoteVariant (toLowerChar c) (toLowerChar d) = true := by
  simp only [quoteVariant, Bool.or_eq_true, Bool.and_eq_true, beq_iff_eq] at h ⊢
  rcases h with h | ⟨h1, h2⟩
  · exact Or.inl (by rw [h])
  · exact Or.inr ⟨isQuotationMark_toLowerChar h1, isQuotationMark_toLowerChar h2⟩

/-- Case folding reflects equality on quote-variant pairs. -/
lemma quoteVariant_toLowerChar_inj {c d : Char} (h : quoteVariant c d = true)
    (hl : toLowerChar c = toLowerChar d) : c = d := by
  simp only [quoteVariant, Bool.or_eq_true, Bool.and_eq_true, beq_iff_eq] at h
  rcases h with h | ⟨h1, h2⟩
  · exact h
  · rw [toLowerChar_quote h1, toLowerChar_quote h2] at hl
    exact hl

/-- Removing whitespace commutes with dropping the prefix before the first
ASCII letter. -/
lemma dropWhile_filter_ws (t : List Char) :
    (t.filter fun c => !isKeyWhitespace c).dropWhile (fun c => !isEnglishLetter c)
      = (t.dropWhile fun c => !isEnglishLetter c).filter fun c => !isKeyWhitespace c := by
  induction t with
  | nil => rfl
  | cons c t ih =>
    by_cases hw : isKeyWhitespace c
    · have hl := isKeyWhitespace_not_isEnglishLetter hw
      simp [List.filter_cons, List.dropWhile_cons, hw, hl, ih]
    · by_cases hl : isEnglishLetter c
      · simp [List.filter_cons, List.dropWhile_cons, hw, hl]
      · simp [List.filter_cons, List.dropWhile_cons, hw, hl, ih]

/-- The head of the dropped-prefix remainder is an ASCII letter. -/
lemma dropWhile_head_letter {t : List Char} {c : Char} {cs : List Char}
    (h : t.dropWhile (fun x => !isEnglishLetter x) = c :: cs) :
    isEnglishLetter c = true := by
  induction t with
  | nil => cases h
  | cons d t ih =>
    rw [List.dropWhile_cons] at h
    by_cases hd : isEnglishLetter d
    · simp only [hd, Bool.not_true, if_false] at h
      cases h
      exact hd
    · simp only [hd] at h
      simp only [Bool.not_false, if_true] at h
      exact ih h

/-- Whitespace removal is idempotent. -/
lemma filter_ws_idem (l : List Char) :
    (l.filter fun c => !isKeyWhitespace c).filter (fun c => !isKeyWhitespace c)
      = l.filter fun c => !isKeyWhitespace c := by
  induction l with
  | nil => rfl
  | cons c l ih =>
    by_cases hw : isKeyWhitespace c <;> simp [List.filter_cons, hw, ih]

/-- The normalized key ignores whitespace entirely: it is computed from the
whitespace-free projection of the text. -/
lemma generateLineKey_filter_ws (t : List Char) :
    generateLineKey (t.filter fun c => !isKeyWhitespace c) = generateLineKey t := by
  unfold generateLineKey
  rw [dropWhile_filter_ws]
  match hu : t.dropWhile (fun c => !isEnglishLetter c) with
  | [] => simp
  | c :: cs =>
    have hc := dropWhile_head_letter hu
    have hcw := isEnglishLetter_not_isKeyWhitespace hc
    rw [filter_ws_idem]
    simp [List.filter_cons, hcw]

/-- `pairwiseB` transports along the prefix-dropping step for any relation
that preserves letter-ness. -/
lemma pairwiseB_dropWhile {R : Char → Char → Bool}
    (hL : ∀ c d, R c d = true → isEnglishLetter c = isEnglishLetter d) :
    ∀ {t1 t2 : List Char}, pairwiseB R t1 t2 = true →
      pairwiseB R (t1.dropWhile fun c => !isEnglishLetter c)
        (t2.dropWhile fun c => !isEnglishLetter c) = true := by
  intro t1
  induction t1 with
  | nil =>
    intro t2 h
    match t2 with
    | [] => exact h
    | d :: t2' => simp [pairwiseB] at h
  | cons c t1 ih =>
    intro t2 h
    match t2 with
    | [] => simp [pairwiseB] at h
    | d :: t2' =>
      have hR : R c d = true ∧ pairwiseB R t1 t2' = true := by
        simpa [pairwiseB, Bool.and_eq_true] using h
      by_cases hl : isEnglishLetter c
      · have hld : isEnglishLetter d = true := by rw [← hL _ _ hR.1]; exact hl
        simp only [List.dropWhile_cons, hl, hld, Bool.not_true, if_false]
        simpa [pairwiseB, Bool.and_eq_true] using hR
      · have hld : isEnglishLetter d = false := by
          rw [← hL _ _ hR.1]
          simpa using hl
        simp only [List.dropWhile_cons, hld, Bool.not_false, if_true,
          Bool.not_eq_true] at *
        simp only [hl, if_true] at *
        exact ih hR.2

/-- `pairwiseB` transports along whitespace removal for any relation that
preserves whitespace-ness. -/
lemma pairwiseB_filter {R : Char → Char → Bool}
    (hW : ∀ c d, R c d = true → isKeyWhitespace c = isKeyWhitespace d) :
    ∀ {t1 t2 : List Char}, pairwiseB R t1 t2 = true →
      pairwiseB R (t1.filter fun c => !isKeyWhitespace c)
        (t2.filter fun c => !isKeyWhitespace c) = true := by
  intro t1
  induction t1 with
  | nil =>
    intro t2 h
    match t2 with
    | [] => exact h
    | d :: t2' => simp [pairwiseB] at h
  | cons c t1 ih =>
    intro t2 h
    match t2 with
    | [] => simp [pairwiseB] at h
    | d :: t2' =>
      have hR : R c d = true ∧ pairwiseB R t1 t2' = true := by
        simpa [pairwiseB, Bool.and_eq_true] using h
      by_cases hw : isKeyWhitespace c
      · have hwd : isKeyWhitespace d = true := by rw [← hW _ _ hR.1]; exact hw
        simp only [List.filter_cons, hw, hwd, Bool.not_true, if_false]
        exact ih hR.2
      · have hwd : isKeyWhitespace d = false := by
          rw [← hW _ _ hR.1]
          simpa using hw
        simp only [List.filter_cons, hw, hwd, Bool.not_false, if_true]
        simpa [pairwiseB, Bool.and_eq_true] using ⟨hR.1, ih hR.2⟩

/-- Case-variant lists have the same case-folded image. -/
lemma pairwiseB_caseVariant_map_eq :
    ∀ {t1 t2 : List Char}, pairwiseB caseVariant t1 t2 = true →
      t1.map toLowerChar = t2.map toLowerChar := by
  intro t1
  induction t1 with
  | nil =>
    intro t2 h
    match t2 with
    | [] => rfl
    | d :: t2' => simp [pairwiseB] at h
  | cons c t1 ih =>
    intro t2 h
    match t2 with
    | [] => simp [pairwiseB] at h
    | d :: t2' =>
      have hR : caseVariant c d = true ∧ pairwiseB caseVariant t1 t2' = true := by
        simpa [pairwiseB, Bool.and_eq_true] using h
      simp only [List.map_cons]
      rw [caseVariant_lower_eq hR.1, ih hR.2]

/-- Claim C7, part (b): the normalized key is invariant under case changes
of ASCII letters. -/
lemma generateLineKey_caseVariant {t1 t2 : List Char}
    (h : pairwiseB caseVariant t1 t2 = true) :
    generateLineKey t1 = generateLineKey t2 := by
  unfold generateLineKey
  have h1 := pairwiseB_dropWhile (fun c d => caseVariant_letter_eq) h
  have h2 := pairwiseB_filter (fun c d => caseVariant_ws_eq) h1
  have h3 := pairwiseB_caseVariant_map_eq h2
  have hnil := pairwiseB_nil_iff h1
  by_cases he : (t1.dropWhile fun c => !isEnglishLetter c) = []
  · have he2 := hnil.1 he
    simp [he, he2]
  · have he2 : ¬ (t2.dropWhile fun c => !isEnglishLetter c) = [] :=
      fun hh => he (hnil.2 hh)
    simp only [List.isEmpty_iff, he, he2, if_false, h3]

/-- Whitespace removal reflects equality on quote-variant lists. -/
lemma filter_ws_inj_quote :
    ∀ {t1 t2 : List Char}, pairwiseB quoteVariant t1 t2 = true →
      (t1.filter fun c => !isKeyWhitespace c) = (t2.filter fun c => !isKeyWhitespace c) →
      t1 = t2 := by
  intro t1
  induction t1 with
  | nil =>
    intro t2 h hf
    match t2 with
    | [] => rfl
    | d :: t2' => simp [pairwiseB] at h
  | cons c t1 ih =>
    intro t2 h hf
    match t2 with
    | [] => simp [pairwiseB] at h
    | d :: t2' =>
      have hR : quoteVariant c d = true ∧ pairwiseB quoteVariant t1 t2' = true := by
        simpa [pairwiseB, Bool.and_eq_true] using h
      by_cases hw : isKeyWhitespace c
      · have hcd : c = d := by
          have := hR.1
          simp only [quoteVariant, Bool.or_eq_true, Bool.and_eq_true,
            beq_iff_eq] at this
          rcases this with this | ⟨h1, _⟩
          · exact this
          · rw [isQuotationMark_not_isKeyWhitespace h1] at hw
            cases hw
        have hwd : isKeyWhitespace d = true := hcd ▸ hw
        rw [List.filter_cons, List.filter_cons] at hf
        simp only [hw, hwd, Bool.not_true, if_false] at hf
        rw [hcd, ih hR.2 hf]
      · have hwd : isKeyWhitespace d = false := by
          rw [← quoteVariant_ws_eq hR.1]
          simpa using hw
        rw [List.filter_cons, List.filter_cons] at hf
        simp only [hw, hwd, Bool.not_false, if_true, List.cons.injEq] at hf
        rw [hf.1, ih hR.2 hf.2]

/-- Case folding reflects equality on quote-variant lists. -/
lemma map_toLower_inj_quote :
    ∀ {t1 t2 : List Char}, pairwiseB quoteVariant t1 t2 = true →
      t1.map toLowerChar = t2.map toLowerChar → t1 = t2 := by
  intro t1
  induction t1 with
  | nil =>
    intro t2 h hm
    match t2 with
    | [] => rfl
    | d :: t2' => simp [pairwiseB] at h
  | cons c t1 ih =>
    intro t2 h hm
    match t2 with
    | [] => simp [pairwiseB] at h
    | d :: t2' =>
      have hR : quoteVariant c d = true ∧ pairwiseB quoteVariant t1 t2' = true := by
        simpa [pairwiseB, Bool.and_eq_true] using h
      simp only [List.map_cons, List.cons.injEq] at hm
      rw [quoteVariant_toLowerChar_inj hR.1 hm.1, ih hR.2 hm.2]

/-- Case folding preserves the quote-variant relation on lists. -/
lemma pairwiseB_map_toLower_quote :
    ∀ {t1 t2 : List Char}, pairwiseB quoteVariant t1 t2 = true →
      pairwiseB quoteVariant (t1.map toLowerChar) (t2.map toLowerChar) = true := by
  intro t1
  induction t1 with
  | nil =>
    intro t2 h
    match t2 with
    | [] => exact h
    | d :: t2' => simp [pairwiseB] at h
  | cons c t1 ih =>
    intro t2 h
    match t2 with
    | [] => simp [pairwiseB] at h
    | d :: t2' =>
      have hR : quoteVariant c d = true ∧ pairwiseB quoteVariant t1 t2' = true := by
        simpa [pairwiseB, Bool.and_eq_true] using h
      simp only [List.map_cons, pairwiseB, Bool.and_eq_true]
      exact ⟨quoteVariant_toLowerChar hR.1, ih hR.2⟩

/-- The enumeration-prefix step keeps distinct quote-variant keys distinct
when their first characters agree. -/
lemma dotTrim_ne_of_quoteVariant {a : Char} {r1 r2 : List Char}
    (hp : pairwiseB quoteVariant r1 r2 = true) (hne : r1 ≠ r2) :
    dotTrim (a :: r1) ≠ dotTrim (a :: r2) := by
  match r1, r2 with
  | [], [] => exact absurd rfl hne
  | [], b2 :: rs2 => simp [pairwiseB] at hp
  | b1 :: rs1, [] => simp [pairwiseB] at hp
  | b1 :: rs1, b2 :: rs2 =>
    have hR : quoteVariant b1 b2 = true ∧ pairwiseB quoteVariant rs1 rs2 = true := by
      simpa [pairwiseB, Bool.and_eq_true] using hp
    rw [dotTrim_eq_getElem, dotTrim_eq_getElem]
    by_cases hb : b1 = '.'
    · have hb2 : b2 = '.' := (quoteVariant_dot hR.1).1 hb
      subst hb
      subst hb2
      simp only [List.getElem?_cons_succ, List.getElem?_cons_zero,
        beq_self_eq_true, if_true, List.drop_succ_cons, List.drop_zero]
      intro hh
      exact hne (by rw [hh])
    · have hb2 : b2 ≠ '.' := fun hd => hb ((quoteVariant_dot hR.1).2 hd)
      simp only [List.getElem?_cons_succ, List.getElem?_cons_zero, hb, hb2,
        Option.some.injEq, beq_iff_eq, if_false]
      intro hh
      rw [List.cons.injEq, List.cons.injEq] at hh
      exact hne (by rw [hh.2.1, hh.2.2])

/-- Claim C7, part (c) as amended: two lines that differ only in quotation
marks, with at least one difference at or after the first ASCII letter,
have different normalized keys. -/
lemma generateLineKey_quote_ne {t1 t2 : List Char}
    (hq : pairwiseB quoteVariant t1 t2 = true)
    (hne : t1.dropWhile (fun c => !isEnglishLetter c)
      ≠ t2.dropWhile (fun c => !isEnglishLetter c)) :
    generateLineKey t1 ≠ generateLineKey t2 := by
  have hu := pairwiseB_dropWhile (fun c d => quoteVariant_letter_eq) hq
  match hu1 : t1.dropWhile (fun c => !isEnglishLetter c),
      hu2 : t2.dropWhile (fun c => !isEnglishLetter c) with
  | [], [] =>
    rw [hu1, hu2] at hne
    exact absurd rfl hne
  | [], d :: ds => rw [hu1, hu2] at hu; simp [pairwiseB] at hu
  | c :: cs, [] => rw [hu1, hu2] at hu; simp [pairwiseB] at hu
  | c :: cs, d :: ds =>
    rw [hu1, hu2] at hu hne
    have hR : quoteVariant c d = true ∧ pairwiseB quoteVariant cs ds = true := by
      simpa [pairwiseB, Bool.and_eq_true] using hu
    have hcl : isEnglishLetter c = true := dropWhile_head_letter hu1
    have hcd : c = d := quoteVariant_eq_of_letter hR.1 hcl
    subst hcd
    have htne : cs ≠ ds := fun hh => hne (by rw [hh])
    -- whitespace removal keeps the two suffixes distinct and quote-variant
    have hfR := pairwiseB_filter (fun c d => quoteVariant_ws_eq) hR.2
    have hfne : (cs.filter fun x => !isKeyWhitespace x)
        ≠ (ds.filter fun x => !isKeyWhitespace x) :=
      fun hh => htne (filter_ws_inj_quote hR.2 hh)
    -- case folding keeps them distinct and quote-variant
    have hmR := pairwiseB_map_toLower_quote hfR
    have hmne : ((cs.filter fun x => !isKeyWhitespace x).map toLowerChar)
        ≠ ((ds.filter fun x => !isKeyWhitespace x).map toLowerChar) :=
      fun hh => hfne (map_toLower_inj_quote hfR hh)
    -- the keys both start with the lowered first letter; `dotTrim` keeps
    -- the distinct tails distinct
    have hcw := isEnglishLetter_not_isKeyWhitespace hcl
    unfold generateLineKey
    rw [hu1, hu2]
    have hfc1 : (c :: cs).filter (fun x => !isKeyWhitespace x)
        = c :: (cs.filter fun x => !isKeyWhitespace x) := by
      simp [List.filter_cons, hcw]
    have hfc2 : (c :: ds).filter (fun x => !isKeyWhitespace x)
        = c :: (ds.filter fun x => !isKeyWhitespace x) := by
      simp [List.filter_cons, hcw]
    rw [hfc1, hfc2, List.map_cons, List.map_cons]
    simp only [List.isEmpty_cons, Bool.false_eq_true, if_false]
    exact dotTrim_ne_of_quoteVariant hmR hmne

/-- Claim C7, counterexample: the two lines `“Hello` and `"Hello` differ
only in their (leading) quotation mark, yet their normalized keys are
EQUAL — the quotation mark precedes the first ASCII letter and is stripped
by the normalizer, so punctuation sensitivity does not hold for every pair
of lines differing only in quotation marks. -/
theorem normalize_quote_counterexample :
    pairwiseB quoteVariant "“Hello".toList "\"Hello".toList = true
    ∧ "“Hello".toList ≠ "\"Hello".toList
    ∧ generateLineKey "“Hello".toList = generateLineKey "\"Hello".toList := by
  refine ⟨by decide, by decide, by decide⟩

/-- Claim C7, amended: the normalized key is invariant under insertion and
removal of whitespace (two texts with the same whitespace-free projection
have the same key) and under case changes of ASCII letters, and it is
sensitive to quotation marks at or after the first ASCII letter: two lines
that differ only in quotation marks, at least one difference lying at or
after the first ASCII letter, have different keys.  (Differences strictly
before the first ASCII letter are stripped, as the counterexample shows.) -/
theorem normalize_invariances :
    (∀ t1 t2 : List Char,
      (t1.filter fun c => !isKeyWhitespace c) = (t2.filter fun c => !isKeyWhitespace c) →
      generateLineKey t1 = generateLineKey t2)
    ∧ (∀ t1 t2 : List Char, pairwiseB caseVariant t1 t2 = true →
        generateLineKey t1 = generateLineKey t2)
    ∧ (∀ t1 t2 : List Char, pairwiseB quoteVariant t1 t2 = true →
        t1.dropWhile (fun c => !isEnglishLetter c)
          ≠ t2.dropWhile (fun c => !isEnglishLetter c) →
        generateLineKey t1 ≠ generateLineKey t2) := by
  refine ⟨fun t1 t2 h => ?_, fun t1 t2 h => generateLineKey_caseVariant h,
    fun t1 t2 hq hne => generateLineKey_quote_ne hq hne⟩
  rw [← generateLineKey_filter_ws t1, ← generateLineKey_filter_ws t2, h]

/-- Witness for `normalize_invariances`: whitespace insertion, case change,
and a quotation-mark difference after the first letter. -/
theorem normalize_invariances_witness :
    generateLineKey "a b".toList = generateLineKey "ab".toList
    ∧ generateLineKey "AB".toList = generateLineKey "ab".toList
    ∧ generateLineKey "ab\"".toList ≠ generateLineKey "ab”".toList :=
  ⟨normalize_invariances.1 "a b".toList "ab".toList (by decide),
   normalize_invariances.2.1 "AB".toList "ab".toList (by decide),
   normalize_invariances.2.2 "ab\"".toList "ab”".toList (by decide) (by decide)⟩

end Hbc
